import Mathlib

/-! Audio-Equalizer: a shallow embedding of `app.js`.

The script is a page controller: two click handlers (start, stop), two slider
handlers, a frame callback (`animate`), the drawing routine (`drawVisualizer`),
the demo routine (`drawStaticVisualizer`) and the `load` handler.

Modelling decisions.

* JavaScript Numbers are rationals.  Every arithmetic operation and every
  fractional literal of the source is passed through the rounding function
  `Host.rnd` of the host, in the order in which the source performs them.
  Results that need nothing of the rounding are stated for every host; results
  that need it assume `Host.Faithful` (the result of an operation is a nearest
  binary64 value).  Exact arithmetic satisfies it (`Host.Exact.faithful`) and so
  does IEEE 754 round-to-nearest-even, defined here as `binary64`
  (`binary64Host_faithful`).  `NaN` is `none` of `Option ℚ`; overflow to
  infinity is not modelled.
* `Math.PI`, `Math.cos` and `Math.sin` are fields of the host.
* The canvas is the list of drawing primitives painted since the last full
  `clearRect`; one primitive stands for one `beginPath … fill/stroke` group.
* Objects of the platform (media streams, audio contexts, pending frame
  callbacks, pending `getUserMedia` promises) live in host tables of the state,
  with counters of the release calls each of them received.
-/

namespace AudioEqualizer

/-! ## Numbers -/

/-- Finite binary64 values: a 53-bit significand times a power of two. -/
def Representable (d : ℚ) : Prop :=
  ∃ m k : ℤ, |m| < 2 ^ 53 ∧ -1074 ≤ k ∧ k ≤ 971 ∧ d = m * (2 : ℚ) ^ k

/-- Numeric environment of the script: rounding of arithmetic results and the
members of `Math` it uses. -/
structure Host where
  rnd : ℚ → ℚ
  PI : ℚ
  cos : ℚ → ℚ
  sin : ℚ → ℚ

/-- Round-to-nearest: no binary64 value is closer to `x` than `rnd x`, and
rounding a rounded value changes nothing. -/
structure Host.Faithful (H : Host) : Prop where
  nearest : ∀ x d, Representable d → |H.rnd x - x| ≤ |d - x|
  idem : ∀ x, H.rnd (H.rnd x) = H.rnd x

/-- Exact arithmetic: operations are not rounded. -/
def Host.Exact (H : Host) : Prop := ∀ x, H.rnd x = x

/-- The values of `Math.cos` and `Math.sin` lie on the unit circle. -/
def Host.Pythagorean (H : Host) : Prop := ∀ a, H.cos a ^ 2 + H.sin a ^ 2 = 1

/-- A computable host for evaluating the definitions: exact arithmetic, the
binary64 value of `Math.PI`, and the half-angle parametrisation of the unit
circle with `tan (t/2)` replaced by `t/2`, so that `cos 0 = 1`, `sin 0 = 0`
and `cos² + sin² = 1` hold exactly. -/
def exactHost : Host where
  rnd := id
  PI := 884279719003555 / 281474976710656
  cos := fun t => (1 - (t / 2) ^ 2) / (1 + (t / 2) ^ 2)
  sin := fun t => t / (1 + (t / 2) ^ 2)

/-- Round to the nearest integer, ties to the even one. -/
def roundHalfEven (x : ℚ) : ℤ :=
  if x - ⌊x⌋ < 1 / 2 then ⌊x⌋
  else if 1 / 2 < x - ⌊x⌋ then ⌊x⌋ + 1
  else if ⌊x⌋ % 2 = 0 then ⌊x⌋ else ⌊x⌋ + 1

/-- Exponent of the binade of `x`, not below that of the subnormal numbers. -/
def binade (x : ℚ) : ℤ := max (Int.log 2 |x|) (-1022)

/-- Unit in the last place of the binary64 values in the binade of `x`. -/
def ulp (x : ℚ) : ℚ := 2 ^ (binade x - 52)

/-- IEEE 754 binary64 rounding of a rational: to nearest, ties to even, with
gradual underflow; the exponent is not bounded above. -/
def binary64 (x : ℚ) : ℚ := roundHalfEven (x / ulp x) * ulp x

/-- Values with a 53-bit significand and an exponent not below the subnormal
one: the binary64 values when the exponent is not bounded above. -/
def Significand53 (d : ℚ) : Prop :=
  ∃ m k : ℤ, |m| < 2 ^ 53 ∧ -1074 ≤ k ∧ d = m * (2 : ℚ) ^ k

/-- A host whose arithmetic is binary64 rounding and whose `Math.PI` is the
binary64 value of π, over given values of `Math.cos` and `Math.sin`. -/
def binary64Host (cos sin : ℚ → ℚ) : Host where
  rnd := binary64
  PI := 884279719003555 / 281474976710656
  cos := cos
  sin := sin

/-- Conversion of a Number to an element of a `Uint8Array`: truncate toward
zero, then reduce modulo 256. -/
def toUint8 (x : ℚ) : Fin 256 :=
  ⟨((if 0 ≤ x then ⌊x⌋ else ⌈x⌉) % 256).toNat, by
    have h1 := Int.emod_nonneg (if 0 ≤ x then ⌊x⌋ else ⌈x⌉) (by norm_num : (256 : ℤ) ≠ 0)
    have h2 := Int.emod_lt_of_pos (if 0 ≤ x then ⌊x⌋ else ⌈x⌉) (by norm_num : (0 : ℤ) < 256)
    omega⟩

/-! ## Drawing -/

/-- `let settings = { sensitivity: 50, barCount: 60 }`; both fields are later
assigned results of `parseInt`. -/
structure Settings where
  sensitivity : ℤ
  barCount : ℤ
deriving DecidableEq, Repr

/-- One `beginPath … fill` or `beginPath … stroke` group issued to the 2D
context, with the style in force when it is painted. -/
inductive Primitive where
  /-- The group `arc(cx, cy, r, 0, endAngle); fillStyle = style; fill()`. -/
  | fillDisk (cx cy r endAngle : ℚ) (fillStyle : String)
  /-- The group `moveTo(x1, y1); lineTo(x2, y2); stroke()` with
  `strokeStyle = hsl(hue, 100%, 60%)`; `none` is `NaN`. -/
  | strokeLine (x1 y1 : ℚ) (x2 y2 hue : Option ℚ) (lineWidth : ℚ) (lineCap : String)
deriving DecidableEq, Repr

/-- `const centerX = canvas.width / 2` (also `centerY`, from the height). -/
def center (H : Host) (extent : ℕ) : ℚ := H.rnd ((extent : ℚ) / 2)

/-- `const radius = Math.min(centerX, centerY) * 0.8`. -/
def radius (H : Host) (width height : ℕ) : ℚ :=
  H.rnd (min (center H width) (center H height) * H.rnd (8 / 10))

/-- `const angleStep = (Math.PI * 2) / settings.barCount`. -/
def angleStep (H : Host) (barCount : ℤ) : ℚ := H.rnd (H.rnd (H.PI * 2) / barCount)

/-- `Math.floor((i / settings.barCount) * dataArray.length)`. -/
def dataIndex (H : Host) (i : ℕ) (barCount : ℤ) (length : ℕ) : ℤ :=
  ⌊H.rnd (H.rnd ((i : ℚ) / barCount) * length)⌋

/-- The read `dataArray[dataIndex]`: `undefined` outside the array. -/
def sampleAt (dataArray : List (Fin 256)) (idx : ℤ) : Option (Fin 256) :=
  if 0 ≤ idx then dataArray[idx.toNat]? else none

/-- The first two assignments to `height` for a sample that was found:
`dataArray[dataIndex] / 255`, then `height * (settings.sensitivity / 50)`. -/
def scaledHeight (H : Host) (sensitivity : ℤ) (sample : Fin 256) : ℚ :=
  let height := H.rnd (((sample : ℕ) : ℚ) / 255)
  H.rnd (height * H.rnd ((sensitivity : ℚ) / 50))

/-- The value of `height` after the third assignment, `Math.min(height, 1)`. -/
def barHeight (H : Host) (sensitivity : ℤ) (sample : Fin 256) : ℚ :=
  let height := scaledHeight H sensitivity sample
  min height 1

/-- The rational number `(b / 255) * (s / 50)` of the specification, without any
rounding. -/
def rationalProduct (b : Fin 256) (s : ℤ) : ℚ := ((b : ℕ) : ℚ) / 255 * ((s : ℚ) / 50)

/-- `const barLength = 10 + height * (radius * 0.7)`. -/
def barLength (H : Host) (radius height : ℚ) : ℚ :=
  H.rnd (10 + H.rnd (height * H.rnd (radius * H.rnd (7 / 10))))

/-- `radius * 0.2`, the distance of a bar's start point from the centre. -/
def innerRadius (H : Host) (radius : ℚ) : ℚ := H.rnd (radius * H.rnd (2 / 10))

/-- Body of the `for` loop of `drawVisualizer` for bar `i`. -/
def drawBar (H : Host) (settings : Settings) (dataArray : List (Fin 256))
    (width height : ℕ) (i : ℕ) : Primitive :=
  let centerX := center H width
  let centerY := center H height
  let radius := radius H width height
  let angleStep := angleStep H settings.barCount
  let dataIndex := dataIndex H i settings.barCount dataArray.length
  let height : Option ℚ :=
    (sampleAt dataArray dataIndex).map (barHeight H settings.sensitivity)
  let angle := H.rnd (i * angleStep)
  let barLength := height.map (barLength H radius)
  let x1 := H.rnd (centerX + H.rnd (innerRadius H radius * H.cos angle))
  let y1 := H.rnd (centerY + H.rnd (innerRadius H radius * H.sin angle))
  let x2 := barLength.map fun l => H.rnd (centerX + H.rnd (l * H.cos angle))
  let y2 := barLength.map fun l => H.rnd (centerY + H.rnd (l * H.sin angle))
  let hue := height.map fun h => H.rnd (200 + H.rnd (h * 100))
  .strokeLine x1 y1 x2 y2 hue 4 "round"

/-- Square of the Euclidean length of a stroked segment whose end points are
numbers. -/
def Primitive.lengthSq : Primitive → Option ℚ
  | .strokeLine x1 y1 (some x2) (some y2) _ _ _ => some ((x2 - x1) ^ 2 + (y2 - y1) ^ 2)
  | _ => none

/-! ## State of the page -/

/-- The `AnalyserNode` held in `analyser`: its context and its `fftSize`. -/
structure Analyser where
  context : ℕ
  fftSize : ℕ
deriving DecidableEq, Repr

/-- The `MediaStreamAudioSourceNode` held in `microphone`: its `mediaStream`
and its context, as indices into the host tables. -/
structure MicSource where
  mediaStream : ℕ
  context : ℕ
deriving DecidableEq, Repr

/-- Script variables, the parts of the DOM the script writes, and the host
objects it creates. -/
structure State where
  /-- Script variable `audioContext`: `none` is `undefined`, otherwise an index
  into `contexts`. -/
  audioContext : Option ℕ
  /-- Script variable `analyser`. -/
  analyser : Option Analyser
  /-- Script variable `microphone`. -/
  microphone : Option MicSource
  /-- Script variable `dataArray`. -/
  dataArray : Option (List (Fin 256))
  /-- Script variable `isActive`. -/
  isActive : Bool
  /-- Script variable `animationId`. -/
  animationId : Option ℕ
  /-- Script variable `settings`. -/
  settings : Settings
  /-- Readouts `sensitivityValue.textContent` and `barsValue.textContent`, when
  the script has written them. -/
  sensitivityValue : Option ℤ
  barsValue : Option ℤ
  /-- Attribute `startBtn.disabled`. -/
  startDisabled : Bool
  /-- Attribute `stopBtn.disabled`. -/
  stopDisabled : Bool
  /-- Values of `statusDiv.textContent` and `statusDiv.style.color`. -/
  statusText : String
  statusColor : String
  /-- Values of `canvas.width` and `canvas.height`. -/
  canvasWidth : ℕ
  canvasHeight : ℕ
  /-- Primitives painted since the last `clearRect` of the whole canvas. -/
  surface : List Primitive
  /-- Handles of the frame callbacks requested and neither run nor cancelled. -/
  pendingFrames : List ℕ
  /-- Handle the next `requestAnimationFrame` returns. -/
  nextFrameId : ℕ
  /-- Number of `getUserMedia` promises awaited by a start handler. -/
  pendingMic : ℕ
  /-- Host table of media streams: for each stream, for each of its tracks, the
  number of `stop()` calls received. -/
  streams : List (List ℕ)
  /-- Host table of audio contexts: for each, the number of `close()` calls. -/
  contexts : List ℕ
  /-- Lines written with `console.log` and `console.error`. -/
  console : List String
  /-- Errors thrown out of a handler or callback. -/
  uncaught : List String
  /-- Ghost counter: element reads `dataArray[dataIndex]` performed so far. -/
  sampleReads : ℕ
deriving DecidableEq, Repr

/-- Initial values of the attributes that come from the HTML document. -/
structure Page where
  startDisabled : Bool
  stopDisabled : Bool
  statusText : String
  statusColor : String
deriving DecidableEq, Repr

/-- State after the top level of the script has run. -/
def initialState (page : Page) : State where
  audioContext := none
  analyser := none
  microphone := none
  dataArray := none
  isActive := false
  animationId := none
  settings := { sensitivity := 50, barCount := 60 }
  sensitivityValue := none
  barsValue := none
  startDisabled := page.startDisabled
  stopDisabled := page.stopDisabled
  statusText := page.statusText
  statusColor := page.statusColor
  canvasWidth := 400
  canvasHeight := 400
  surface := []
  pendingFrames := []
  nextFrameId := 1
  pendingMic := 0
  streams := []
  contexts := []
  console := []
  uncaught := []
  sampleReads := 0

/-! ## The drawing routine -/

/-- The `for (let i = 0; i < settings.barCount; i++)` loop of `drawVisualizer`,
from index `i` on, reading the array `dataArray` refers to. -/
def drawBars (H : Host) (dataArray : List (Fin 256)) (i : ℕ) (s : State) : State :=
  if (i : ℤ) < s.settings.barCount then
    drawBars H dataArray (i + 1)
      { s with
        surface :=
          s.surface ++ [drawBar H s.settings dataArray s.canvasWidth s.canvasHeight i]
        sampleReads := s.sampleReads + 1 }
  else s
termination_by (s.settings.barCount - i).toNat
decreasing_by simp_wf; omega

/-- The background circle of `drawVisualizer`. -/
def backgroundDisk (H : Host) (width height : ℕ) : Primitive :=
  .fillDisk (center H width) (center H height) (radius H width height)
    (H.rnd (H.PI * 2)) "#16213e"

/-- The center circle of `drawVisualizer`. -/
def centerDisk (H : Host) (width height : ℕ) : Primitive :=
  .fillDisk (center H width) (center H height) 20 (H.rnd (H.PI * 2)) "#4361ee"

/-- The function `drawVisualizer`.  The second component is the error thrown, if
any: reading `dataArray.length` in the first iteration fails when `dataArray`
is `undefined`. -/
def drawVisualizer (H : Host) (s : State) : State × Option String :=
  let s := { s with surface := s.surface ++ [backgroundDisk H s.canvasWidth s.canvasHeight] }
  match s.dataArray with
  | some d =>
    let s := drawBars H d 0 s
    ({ s with surface := s.surface ++ [centerDisk H s.canvasWidth s.canvasHeight] }, none)
  | none =>
    if 0 < s.settings.barCount then (s, some "TypeError")
    else ({ s with surface := s.surface ++ [centerDisk H s.canvasWidth s.canvasHeight] }, none)

/-- The fake frequency data of `drawStaticVisualizer`:
`demoData[i] = Math.sin(i * 0.05) * 100 + 100` for `i < 1024`. -/
def demoData (H : Host) : List (Fin 256) :=
  (List.range 1024).map fun (i : ℕ) =>
    toUint8 (H.rnd (H.rnd (H.sin (H.rnd ((i : ℚ) * H.rnd (5 / 100))) * 100) + 100))

/-- The function `drawStaticVisualizer`; a throw of `drawVisualizer` would skip
the restoring assignment. -/
def drawStaticVisualizer (H : Host) (s : State) : State × Option String :=
  let originalDataArray := s.dataArray
  let s := { s with dataArray := some (demoData H) }
  match drawVisualizer H s with
  | (s, none) => ({ s with dataArray := originalDataArray }, none)
  | (s, some e) => (s, some e)

/-- The primitives painted between two states when the canvas was not cleared
in between. -/
def issued (before after : State) : List Primitive :=
  after.surface.drop before.surface.length

/-- The sequence the specification gives for one call of the draw routine: a
filled background disk of radius `R`, one stroked segment per bar index in
increasing order, a filled disk of radius 20. -/
def specSequence (H : Host) (settings : Settings) (dataArray : List (Fin 256))
    (width height : ℕ) : List Primitive :=
  [Primitive.fillDisk (center H width) (center H height) (radius H width height)
      (H.rnd (H.PI * 2)) "#16213e"]
    ++ (List.range settings.barCount.toNat).map (drawBar H settings dataArray width height)
    ++ [Primitive.fillDisk (center H width) (center H height) 20 (H.rnd (H.PI * 2)) "#4361ee"]

/-! ## The render loop -/

/-- The call `analyser.getByteFrequencyData(dataArray)`: the host copies its
current frequency data `fresh` over the array, as far as both reach. -/
def refresh (dataArray fresh : List (Fin 256)) : List (Fin 256) :=
  fresh.take dataArray.length ++ dataArray.drop fresh.length

/-- The function `animate`, when the host's frequency data is `fresh`.  The second
component is the error thrown, if any. -/
def animate (H : Host) (fresh : List (Fin 256)) (s : State) : State × Option String :=
  if s.isActive = false then (s, none)
  else
    match s.analyser, s.dataArray with
    | some _, some d =>
      let s := { s with dataArray := some (refresh d fresh) }
      let s := { s with surface := [] }
      match drawVisualizer H s with
      | (s, none) =>
        ({ s with
            animationId := some s.nextFrameId
            pendingFrames := s.pendingFrames ++ [s.nextFrameId]
            nextFrameId := s.nextFrameId + 1 }, none)
      | (s, some e) => (s, some e)
    | _, _ => (s, some "TypeError")

/-! ## The handlers -/

/-- The `input` handler of the sensitivity slider; `v` is `parseInt(this.value)`. -/
def sensitivityInput (v : ℤ) (s : State) : State :=
  { s with settings := { s.settings with sensitivity := v }, sensitivityValue := some v }

/-- The `input` handler of the bar-count slider; `v` is `parseInt(this.value)`. -/
def barsInput (v : ℤ) (s : State) : State :=
  { s with settings := { s.settings with barCount := v }, barsValue := some v }

/-- The calls of the start handler that can throw between the `await` and the
assignment `isActive = true`. -/
inductive StartStep where
  | newAudioContext
  | createAnalyser
  | createMediaStreamSource
  | connect
  | newUint8Array
deriving DecidableEq, Repr

/-- How the awaited `getUserMedia` promise settles and how the rest of the `try`
block goes: rejected, or fulfilled with a stream of `tracks` tracks and then
either a throw at `failAt` or none, in which case `animate` sees `fresh`. -/
inductive MicOutcome where
  | denied
  | granted (tracks : ℕ) (failAt : Option StartStep) (fresh : List (Fin 256))
deriving DecidableEq, Repr

/-- The constructor call `new Uint8Array(n)`: `n` zero bytes. -/
def newUint8Array (n : ℕ) : List (Fin 256) := List.replicate n 0

/-- The start handler up to its `await`: the microphone request is made. -/
def startRequest (s : State) : State :=
  { s with pendingMic := s.pendingMic + 1 }

/-- The `catch` block of the start handler. -/
def startCatch (s : State) : State :=
  { s with
    console := s.console ++ ["Error accessing microphone:"]
    statusText := "❌ Error accessing microphone"
    statusColor := "#f72585" }

/-- The start handler after its `await`. -/
def startResume (H : Host) (o : MicOutcome) (s : State) : State :=
  match o with
  | .denied => startCatch s
  | .granted tracks failAt fresh =>
    let stream := s.streams.length
    let s := { s with streams := s.streams ++ [List.replicate tracks 0] }
    if failAt = some .newAudioContext then startCatch s else
    let ctxId := s.contexts.length
    let s := { s with contexts := s.contexts ++ [0], audioContext := some ctxId }
    if failAt = some .createAnalyser then startCatch s else
    let s := { s with analyser := some { context := ctxId, fftSize := 2048 } }
    if failAt = some .createMediaStreamSource then startCatch s else
    let s := { s with microphone := some { mediaStream := stream, context := ctxId } }
    if failAt = some .connect then startCatch s else
    if failAt = some .newUint8Array then startCatch s else
    let s := { s with dataArray := some (newUint8Array (2048 / 2)) }
    let s :=
      { s with
        isActive := true
        startDisabled := true
        stopDisabled := false
        statusText := "🟢 Microphone: On - Speak or play music!"
        statusColor := "#4cc9f0" }
    match animate H fresh s with
    | (s, none) => s
    | (s, some _) => startCatch s

/-- The whole start handler when nothing else runs during its `await`. -/
def startHandler (H : Host) (o : MicOutcome) (s : State) : State :=
  let s := startRequest s
  startResume H o { s with pendingMic := s.pendingMic - 1 }

/-- The stop handler. -/
def stopHandler (s : State) : State :=
  let s :=
    match s.microphone with
    | some m => { s with streams := s.streams.modify (List.map (· + 1)) m.mediaStream }
    | none => s
  let s :=
    match s.audioContext with
    | some c => { s with contexts := s.contexts.modify (· + 1) c }
    | none => s
  let s :=
    { s with
      isActive := false
      startDisabled := false
      stopDisabled := true
      statusText := "🔴 Microphone: Off"
      statusColor := "white" }
  let s :=
    match s.animationId with
    | some id => { s with pendingFrames := s.pendingFrames.filter (· ≠ id) }
    | none => s
  { s with surface := [] }

/-- The `load` handler. -/
def loadHandler (H : Host) (s : State) : State :=
  match drawStaticVisualizer H s with
  | (s, none) =>
    { s with
      console := s.console ++
        ["Simple Audio Visualizer loaded!", "Click \x27Start Microphone\x27 to begin."] }
  | (s, some e) => { s with uncaught := s.uncaught ++ [e] }

/-! ## Events -/

/-- What the user and the host can do to the page. -/
inductive Event where
  | load
  | sensitivityInput (v : ℤ)
  | barsInput (v : ℤ)
  | startClick
  | micSettled (o : MicOutcome)
  | frame (id : ℕ) (fresh : List (Fin 256))
  | stopClick
deriving DecidableEq, Repr

/-- One event.  A disabled button dispatches no click; a promise settles only if
one is awaited; a frame callback runs only if its handle is pending, and an
error it throws is reported by the host. -/
def step (H : Host) (e : Event) (s : State) : State :=
  match e with
  | .load => loadHandler H s
  | .sensitivityInput v => sensitivityInput v s
  | .barsInput v => barsInput v s
  | .startClick => if s.startDisabled then s else startRequest s
  | .micSettled o =>
    if s.pendingMic = 0 then s else startResume H o { s with pendingMic := s.pendingMic - 1 }
  | .frame id fresh =>
    if id ∈ s.pendingFrames then
      match animate H fresh { s with pendingFrames := s.pendingFrames.erase id } with
      | (s, none) => s
      | (s, some e) => { s with uncaught := s.uncaught ++ [e] }
    else s
  | .stopClick => if s.stopDisabled then s else stopHandler s

/-- A sequence of events, in order. -/
def run (H : Host) (events : List Event) (s : State) : State :=
  events.foldl (fun s e => step H e s) s

/-- Whether the `try` block of the start handler is left by a throw before the
assignment `isActive = true`. -/
def MicOutcome.failsEarly : MicOutcome → Bool
  | .denied => true
  | .granted _ failAt _ => failAt.isSome

/-- A running capture session as a successful start leaves it: the activity flag
set, `microphone` and `audioContext` referring to a stream of `tracks` tracks
and a context that have received no release call, and exactly one frame
callback pending, the one `animationId` names. -/
def ActiveSession (s : State) (m : MicSource) (c id tracks : ℕ) : Prop :=
  s.isActive = true ∧ s.microphone = some m ∧ s.audioContext = some c ∧
    s.streams[m.mediaStream]? = some (List.replicate tracks 0) ∧
    s.contexts[c]? = some 0 ∧
    s.animationId = some id ∧ s.pendingFrames = [id]

/-- A page whose start button is enabled and whose stop button is disabled, with
an empty status line, for evaluating the definitions. -/
def referencePage : Page where
  startDisabled := false
  stopDisabled := true
  statusText := ""
  statusColor := ""

/-- The initial state of `referencePage` with `dataArray` set to 1024 zero bytes,
for evaluating the drawing routine. -/
def referenceState : State :=
  { initialState referencePage with dataArray := some (List.replicate 1024 0) }

/-- No device was ever acquired: both handles are still `undefined`. -/
def NoDevice (s : State) : Prop := s.microphone = none ∧ s.audioContext = none

/-- The session is already stopped: the state is one the stop handler left. -/
def AlreadyStopped (s : State) : Prop := ∃ s0, s = stopHandler s0

/-- The reference page after a start whose microphone request was denied. -/
def deniedState : State := startHandler exactHost .denied (initialState referencePage)

/-- The reference page after a successful start with a one-track stream. -/
def startedState : State :=
  startHandler exactHost (.granted 1 none []) (initialState referencePage)

/-- The reference page after a successful start and one run of the stop handler. -/
def stoppedState : State := stopHandler startedState

/-- The reference page after its `load` handler. -/
def loadedState : State := loadHandler exactHost (initialState referencePage)

/-- Two start clicks while the first microphone request is still awaited, then
both requests granted. -/
def doubleStart : List Event :=
  [.startClick, .startClick, .micSettled (.granted 1 none []), .micSettled (.granted 1 none [])]

/-- One event when a start click made while a microphone request is still
awaited is ignored; every other event is as in `step`. -/
def stepSingleRequest (H : Host) (e : Event) (s : State) : State :=
  match e with
  | .startClick => if s.pendingMic = 0 then step H .startClick s else s
  | e => step H e s

/-- A sequence of events under `stepSingleRequest`. -/
def runSingleRequest (H : Host) (events : List Event) (s : State) : State :=
  events.foldl (fun s e => stepSingleRequest H e s) s

/-- Invariant of the render loop when microphone requests do not overlap: at
most one request is awaited; while capture is active none is, the start button
is disabled, the resources of `animate` are set and exactly the frame callback
named by `animationId` is pending; while capture is off none is pending. -/
def LoopInvariant (s : State) : Prop :=
  s.pendingMic ≤ 1 ∧
    (s.isActive = true →
      s.pendingMic = 0 ∧ s.startDisabled = true ∧ s.analyser ≠ none ∧ s.dataArray ≠ none ∧
        ∃ id, s.animationId = some id ∧ s.pendingFrames = [id]) ∧
    (s.isActive = false → s.pendingFrames = [])

/-! ## Rounding lemmas -/

theorem Host.Faithful.rnd_le {H : Host} (hf : H.Faithful) {x d : ℚ}
    (hd : Representable d) (hx : x ≤ d) : H.rnd x ≤ d := by
  have h := hf.nearest x d hd
  rw [abs_of_nonneg (sub_nonneg.mpr hx)] at h
  have := le_abs_self (H.rnd x - x)
  linarith

theorem Host.Faithful.le_rnd {H : Host} (hf : H.Faithful) {x d : ℚ}
    (hd : Representable d) (hx : d ≤ x) : d ≤ H.rnd x := by
  have h := hf.nearest x d hd
  rw [abs_of_nonpos (sub_nonpos.mpr hx)] at h
  have := neg_abs_le (H.rnd x - x)
  linarith

theorem Host.Faithful.rnd_eq {H : Host} (hf : H.Faithful) {d : ℚ}
    (hd : Representable d) : H.rnd d = d :=
  le_antisymm (hf.rnd_le hd le_rfl) (hf.le_rnd hd le_rfl)

theorem Host.Exact.faithful {H : Host} (he : H.Exact) : H.Faithful where
  nearest x d _ := by rw [he x, sub_self, abs_zero]; exact abs_nonneg _
  idem x := by rw [he]

theorem exactHost_exact : exactHost.Exact := fun _ => rfl

theorem exactHost_pythagorean : exactHost.Pythagorean := by
  intro a
  have h : (1 : ℚ) + (a / 2) ^ 2 ≠ 0 := by positivity
  simp only [exactHost]
  field_simp
  ring

theorem representable_natCast {n : ℕ} (h : n < 2 ^ 53) : Representable (n : ℚ) := by
  refine ⟨n, 0, ?_, by norm_num, by norm_num, by simp⟩
  rw [abs_of_nonneg (by positivity)]
  exact_mod_cast h

theorem representable_scaled {m : ℕ} (h : m < 2 ^ 53) {j : ℕ} (hj : j ≤ 1074) :
    Representable ((m : ℚ) / 2 ^ j) := by
  refine ⟨m, -j, ?_, by omega, by omega, ?_⟩
  · rw [abs_of_nonneg (by positivity)]
    exact_mod_cast h
  · rw [zpow_neg, zpow_natCast]; push_cast; rw [div_eq_mul_inv]

theorem representable_zero : Representable 0 := by
  simpa using representable_natCast (n := 0) (by norm_num)

theorem Host.Faithful.rnd_nonneg {H : Host} (hf : H.Faithful) {x : ℚ} (hx : 0 ≤ x) :
    0 ≤ H.rnd x :=
  hf.le_rnd representable_zero hx

theorem Host.Faithful.rnd_natCast {H : Host} (hf : H.Faithful) {n : ℕ} (h : n < 2 ^ 53) :
    H.rnd (n : ℚ) = n :=
  hf.rnd_eq (representable_natCast h)

/-! ## Binary64 rounding is round-to-nearest -/

theorem roundHalfEven_near (x : ℚ) : |x - roundHalfEven x| ≤ 1 / 2 := by
  have h1 := Int.floor_le x
  have h2 := Int.lt_floor_add_one x
  unfold roundHalfEven
  split_ifs with ha hb hc
  · rw [abs_of_nonneg (by linarith)]; linarith
  · push_cast; rw [abs_of_nonpos (by linarith)]; linarith
  · rw [abs_of_nonneg (by linarith)]; linarith
  · push_cast; rw [abs_of_nonpos (by linarith)]; linarith

theorem roundHalfEven_nearest (x : ℚ) (z : ℤ) : |x - roundHalfEven x| ≤ |x - z| := by
  by_cases h : z = roundHalfEven x
  · rw [h]
  · have h1 := roundHalfEven_near x
    have h2 : (1 : ℚ) ≤ |(z : ℚ) - roundHalfEven x| := by
      have : (1 : ℤ) ≤ |z - roundHalfEven x| := Int.one_le_abs (sub_ne_zero.mpr h)
      exact_mod_cast this
    have h3 : |(z : ℚ) - roundHalfEven x| ≤ |x - z| + |x - roundHalfEven x| := by
      have := abs_sub_le (z : ℚ) x (roundHalfEven x)
      rwa [abs_sub_comm (z : ℚ) x] at this
    linarith

theorem Representable.significand53 {d : ℚ} (h : Representable d) : Significand53 d := by
  obtain ⟨m, k, h1, h2, _, h4⟩ := h
  exact ⟨m, k, h1, h2, h4⟩

theorem binade_ge (x : ℚ) : -1022 ≤ binade x := le_max_right _ _

theorem ulp_pos (x : ℚ) : 0 < ulp x := by unfold ulp; positivity

theorem abs_lt_binade (x : ℚ) : |x| < 2 ^ (binade x + 1) := by
  have h1 : |x| < (2 : ℚ) ^ (Int.log 2 |x| + 1) := by
    exact_mod_cast Int.lt_zpow_succ_log_self (by norm_num : 1 < 2) |x|
  have h2 : (2 : ℚ) ^ (Int.log 2 |x| + 1) ≤ 2 ^ (binade x + 1) :=
    zpow_le_zpow_right₀ (by norm_num) (by unfold binade; have := le_max_left (Int.log 2 |x|) (-1022); omega)
  linarith

theorem binade_le_abs {x : ℚ} (hx : x ≠ 0) (h : -1022 < binade x) : 2 ^ binade x ≤ |x| := by
  have hb : binade x = Int.log 2 |x| := by
    unfold binade at h ⊢
    rcases max_cases (Int.log 2 |x|) (-1022) with ⟨h1, _⟩ | ⟨h1, _⟩
    · exact h1
    · rw [h1] at h; omega
  rw [hb]
  exact_mod_cast Int.zpow_log_le_self (by norm_num : 1 < 2) (abs_pos.mpr hx)

theorem binary64_le_multiple (x : ℚ) (z : ℤ) : |binary64 x - x| ≤ |z * ulp x - x| := by
  have hu := ulp_pos x
  have h := roundHalfEven_nearest (x / ulp x) z
  have e1 : binary64 x - x = -(x / ulp x - roundHalfEven (x / ulp x)) * ulp x := by
    unfold binary64; field_simp; ring
  have e2 : z * ulp x - x = -(x / ulp x - z) * ulp x := by field_simp; ring
  rw [e1, e2, abs_mul, abs_mul, abs_neg, abs_neg]
  exact mul_le_mul_of_nonneg_right h (abs_nonneg _)

theorem binary64_nearest (x d : ℚ) (hd : Significand53 d) : |binary64 x - x| ≤ |d - x| := by
  obtain ⟨m, k, hm, hk, rfl⟩ := hd
  by_cases hx : x = 0
  · subst hx
    have : binary64 0 = 0 := by simp [binary64, roundHalfEven]
    rw [this]; simp
  rcases le_or_lt (binade x - 52) k with hk2 | hk2
  · -- `d` is a multiple of the unit in the last place
    obtain ⟨j, hj⟩ := Int.eq_ofNat_of_zero_le (sub_nonneg.mpr hk2)
    have e : (m : ℚ) * 2 ^ k = ((m * 2 ^ j : ℤ) : ℚ) * ulp x := by
      have hk' : k = (j : ℤ) + (binade x - 52) := by omega
      unfold ulp
      rw [hk', zpow_add₀ (by norm_num), zpow_natCast]; push_cast; ring
    rw [e]
    exact binary64_le_multiple x _
  · -- `d` is smaller in magnitude than the lower end of the binade
    have hb : -1022 < binade x := by omega
    have hlow := binade_le_abs hx hb
    have hm' : |(m : ℚ)| ≤ 2 ^ 53 := by
      have : |m| ≤ 2 ^ 53 := hm.le
      exact_mod_cast this
    have hd : |(m : ℚ) * 2 ^ k| ≤ 2 ^ binade x := by
      rw [abs_mul, abs_of_pos (by positivity : (0 : ℚ) < 2 ^ k)]
      calc |(m : ℚ)| * 2 ^ k ≤ 2 ^ 53 * 2 ^ k := mul_le_mul_of_nonneg_right hm' (by positivity)
        _ = 2 ^ ((53 : ℤ) + k) := by rw [zpow_add₀ (by norm_num)]; norm_num
        _ ≤ 2 ^ binade x := zpow_le_zpow_right₀ (by norm_num) (by omega)
    have e52 : (2 : ℚ) ^ binade x = ((2 ^ 52 : ℤ) : ℚ) * ulp x := by
      unfold ulp
      rw [zpow_sub₀ (by norm_num)]
      norm_num
      field_simp
    rcases lt_or_gt_of_ne hx with hneg | hpos
    · have h1 := binary64_le_multiple x (-(2 ^ 52))
      have e : ((-(2 ^ 52) : ℤ) : ℚ) * ulp x = -(2 : ℚ) ^ binade x := by
        rw [e52]; push_cast; ring
      rw [e] at h1
      rw [abs_of_neg hneg] at hlow
      have h2 : |-(2 : ℚ) ^ binade x - x| = -(2 : ℚ) ^ binade x - x :=
        abs_of_nonneg (by linarith)
      have h3 := neg_abs_le ((m : ℚ) * 2 ^ k)
      have h4 := le_abs_self ((m : ℚ) * 2 ^ k - x)
      linarith
    · have h1 := binary64_le_multiple x (2 ^ 52)
      rw [← e52] at h1
      rw [abs_of_pos hpos] at hlow
      have h2 : |(2 : ℚ) ^ binade x - x| = x - (2 : ℚ) ^ binade x := by
        rw [abs_sub_comm]; exact abs_of_nonneg (by linarith)
      have h3 := le_abs_self ((m : ℚ) * 2 ^ k)
      have h4 := neg_abs_le ((m : ℚ) * 2 ^ k - x)
      linarith

theorem abs_roundHalfEven_le {x : ℚ} {b : ℤ} (h : |x| ≤ b) : |roundHalfEven x| ≤ b := by
  have h1 := roundHalfEven_near x
  by_contra hc
  push_neg at hc
  have h2 : (b : ℚ) + 1 ≤ |((roundHalfEven x : ℤ) : ℚ)| := by
    have : b + 1 ≤ |roundHalfEven x| := hc
    exact_mod_cast this
  have h3 : |((roundHalfEven x : ℤ) : ℚ)| ≤ |x| + |x - roundHalfEven x| := by
    have := abs_sub_le ((roundHalfEven x : ℤ) : ℚ) x 0
    simp only [sub_zero] at this
    rwa [abs_sub_comm ((roundHalfEven x : ℤ) : ℚ) x, add_comm] at this
  linarith

theorem binary64_form (x : ℚ) :
    ∃ m k : ℤ, |m| < 2 ^ 53 ∧ -1074 ≤ k ∧ k ≤ binade x - 51 ∧ binary64 x = m * (2 : ℚ) ^ k := by
  have hu := ulp_pos x
  have hx : |x / ulp x| ≤ ((2 ^ 53 : ℤ) : ℚ) := by
    rw [abs_div, abs_of_pos hu, div_le_iff₀ hu]
    have h1 := abs_lt_binade x
    have e : ((2 ^ 53 : ℤ) : ℚ) * ulp x = 2 ^ (binade x + 1) := by
      unfold ulp
      rw [zpow_sub₀ (by norm_num), zpow_add₀ (by norm_num)]
      norm_num
      field_simp
      ring
    rw [e]; exact h1.le
  have hn := abs_roundHalfEven_le hx
  rcases hn.lt_or_eq with hlt | heq
  · exact ⟨roundHalfEven (x / ulp x), binade x - 52, hlt, by have := binade_ge x; omega,
      by omega, rfl⟩
  · refine ⟨roundHalfEven (x / ulp x) / 2, binade x - 51, ?_, by have := binade_ge x; omega,
      le_rfl, ?_⟩
    · rcases abs_cases (roundHalfEven (x / ulp x)) with ⟨h1, _⟩ | ⟨h1, _⟩
      · rw [h1] at heq; rw [heq]; norm_num
      · have : roundHalfEven (x / ulp x) = -2 ^ 53 := by omega
        rw [this]; norm_num
    · have hdiv : (roundHalfEven (x / ulp x) / 2 : ℤ) * 2 = roundHalfEven (x / ulp x) := by
        rcases abs_cases (roundHalfEven (x / ulp x)) with ⟨h1, _⟩ | ⟨h1, _⟩
        · rw [h1] at heq; rw [heq]; norm_num
        · have : roundHalfEven (x / ulp x) = -2 ^ 53 := by omega
          rw [this]; norm_num
      have e : (2 : ℚ) ^ (binade x - 51) = 2 * ulp x := by
        unfold ulp
        rw [zpow_sub₀ (by norm_num), zpow_sub₀ (by norm_num)]
        norm_num
        field_simp
        ring
      unfold binary64
      rw [e, ← mul_assoc]
      congr 1
      exact_mod_cast hdiv.symm

theorem binary64_significand53 (x : ℚ) : Significand53 (binary64 x) := by
  obtain ⟨m, k, h1, h2, _, h4⟩ := binary64_form x
  exact ⟨m, k, h1, h2, h4⟩

theorem binary64_idem (x : ℚ) : binary64 (binary64 x) = binary64 x := by
  have h := binary64_nearest (binary64 x) (binary64 x) (binary64_significand53 x)
  rw [sub_self, abs_zero] at h
  exact sub_eq_zero.mp (abs_eq_zero.mp (le_antisymm h (abs_nonneg _)))

theorem binary64Host_faithful (cos sin : ℚ → ℚ) : (binary64Host cos sin).Faithful where
  nearest x d hd := binary64_nearest x d hd.significand53
  idem x := binary64_idem x

/-! ## Evaluating and bounding binary64 rounding -/

theorem binade_eq {x : ℚ} {e : ℤ} (he : -1022 ≤ e) (h1 : 2 ^ e ≤ |x|) (h2 : |x| < 2 ^ (e + 1)) :
    binade x = e := by
  have hpos : 0 < |x| := lt_of_lt_of_le (by positivity) h1
  have hl : Int.log 2 |x| = e := by
    apply le_antisymm
    · have := (Int.lt_zpow_iff_log_lt (by norm_num : 1 < 2) hpos).mp (by exact_mod_cast h2)
      omega
    · exact (Int.zpow_le_iff_le_log (by norm_num : 1 < 2) hpos).mp (by exact_mod_cast h1)
  unfold binade
  rw [hl]; exact max_eq_left he

theorem roundHalfEven_eq {x : ℚ} (n : ℤ) (h1 : (n : ℚ) - 1 / 2 < x) (h2 : x < n + 1 / 2) :
    roundHalfEven x = n := by
  have h3 := abs_le.mp (roundHalfEven_near x)
  have : ((roundHalfEven x : ℤ) : ℚ) < n + 1 := by linarith [h3.1, h3.2]
  have h4 : roundHalfEven x < n + 1 := by exact_mod_cast this
  have : (n : ℚ) - 1 < ((roundHalfEven x : ℤ) : ℚ) := by linarith [h3.1, h3.2]
  have h5 : n - 1 < roundHalfEven x := by exact_mod_cast this
  omega

theorem binary64_eval {x : ℚ} (e : ℤ) (n : ℤ) (he : -1022 ≤ e) (h1 : 2 ^ e ≤ |x|)
    (h2 : |x| < 2 ^ (e + 1)) (hn : roundHalfEven (x / 2 ^ (e - 52)) = n) :
    binary64 x = n * 2 ^ (e - 52) := by
  unfold binary64 ulp
  rw [binade_eq he h1 h2, hn]

theorem binade_le_of_lt {x : ℚ} (h : |x| < 2 ^ (1023 : ℤ)) : binade x ≤ 1022 := by
  unfold binade
  apply max_le _ (by norm_num)
  by_cases hx : x = 0
  · subst hx; simp [Int.log_of_right_le_zero]
  · have h' : |x| < ((2 : ℕ) : ℚ) ^ (1023 : ℤ) := by push_cast; exact h
    have := (Int.lt_zpow_iff_log_lt (by norm_num : 1 < 2) (abs_pos.mpr hx)).mp h'
    omega

theorem binary64_representable {x : ℚ} (h : |x| < 2 ^ (1023 : ℤ)) :
    Representable (binary64 x) := by
  obtain ⟨m, k, h1, h2, h3, h4⟩ := binary64_form x
  have := binade_le_of_lt h
  exact ⟨m, k, h1, h2, by omega, h4⟩

theorem binary64_error (x : ℚ) : |binary64 x - x| ≤ ulp x / 2 := by
  have hu := ulp_pos x
  have h := roundHalfEven_near (x / ulp x)
  have e1 : binary64 x - x = -(x / ulp x - roundHalfEven (x / ulp x)) * ulp x := by
    unfold binary64; field_simp; ring
  rw [e1, abs_mul, abs_neg, abs_of_pos hu]
  calc |x / ulp x - roundHalfEven (x / ulp x)| * ulp x ≤ 1 / 2 * ulp x :=
        mul_le_mul_of_nonneg_right h hu.le
    _ = ulp x / 2 := by ring

theorem ulp_le {x : ℚ} (h : 2 ^ (-1022 : ℤ) ≤ |x|) : ulp x ≤ |x| / 2 ^ 52 := by
  have hx : x ≠ 0 := by
    intro h0; rw [h0, abs_zero] at h
    exact absurd h (not_le.mpr (by positivity))
  have hb : (2 : ℚ) ^ binade x ≤ |x| := by
    rcases (binade_ge x).lt_or_eq with hlt | heq
    · exact binade_le_abs hx hlt
    · rw [← heq]; exact h
  unfold ulp
  rw [zpow_sub₀ (by norm_num)]
  have e : (2 : ℚ) ^ (52 : ℤ) = 2 ^ 52 := by norm_num
  rw [e]
  exact div_le_div_of_nonneg_right hb (by positivity)

/-- Relative error of one rounded operation in the normal range. -/
theorem Host.Faithful.rnd_between {H : Host} (hf : H.Faithful) {x : ℚ}
    (h1 : 2 ^ (-1022 : ℤ) ≤ x) (h2 : x < 2 ^ (1023 : ℤ)) :
    x * (1 - 1 / 2 ^ 53) ≤ H.rnd x ∧ H.rnd x ≤ x * (1 + 1 / 2 ^ 53) := by
  have hx : 0 < x := lt_of_lt_of_le (by positivity) h1
  have ha : |x| = x := abs_of_pos hx
  have hr := hf.nearest x (binary64 x) (binary64_representable (by rw [ha]; exact h2))
  have he := binary64_error x
  have hu := ulp_le (x := x) (by rw [ha]; exact h1)
  rw [ha] at hu
  have hb : |H.rnd x - x| ≤ x / 2 ^ 53 := by
    calc |H.rnd x - x| ≤ ulp x / 2 := hr.trans he
      _ ≤ x / 2 ^ 52 / 2 := by linarith
      _ = x / 2 ^ 53 := by ring
  have := abs_le.mp hb
  constructor
  · have : x * (1 - 1 / 2 ^ 53) = x - x / 2 ^ 53 := by ring
    linarith [this]
  · have : x * (1 + 1 / 2 ^ 53) = x + x / 2 ^ 53 := by ring
    linarith [this]

theorem binary64_fifth : binary64 (50 / 255) = 7064470003718425 / 36028797018963968 := by
  rw [binary64_eval (-3) 7064470003718425 (by norm_num) (by norm_num [abs_of_pos])
    (by norm_num [abs_of_pos]) (roundHalfEven_eq _ (by norm_num) (by norm_num))]
  norm_num

theorem binary64_five_point_one :
    binary64 (255 / 50) = 2871044762448691 / 562949953421312 := by
  rw [binary64_eval 2 5742089524897382 (by norm_num) (by norm_num [abs_of_pos])
    (by norm_num [abs_of_pos]) (roundHalfEven_eq _ (by norm_num) (by norm_num))]
  norm_num

theorem binary64_product_below_one :
    binary64 (7064470003718425 / 36028797018963968 * (2871044762448691 / 562949953421312))
      = 9007199254740991 / 9007199254740992 := by
  rw [binary64_eval (-1) 9007199254740991 (by norm_num) (by norm_num [abs_of_pos])
    (by norm_num [abs_of_pos]) (roundHalfEven_eq _ (by norm_num) (by norm_num))]
  norm_num

theorem binary64_four_fifths : binary64 (8 / 10) = 3602879701896397 / 4503599627370496 := by
  rw [binary64_eval (-1) 7205759403792794 (by norm_num) (by norm_num [abs_of_pos])
    (by norm_num [abs_of_pos]) (roundHalfEven_eq _ (by norm_num) (by norm_num))]
  norm_num

theorem binary64_two_hundred : binary64 200 = 200 := by
  rw [binary64_eval 7 (200 * 2 ^ 45) (by norm_num) (by norm_num [abs_of_pos])
    (by norm_num [abs_of_pos]) (roundHalfEven_eq _ (by norm_num) (by norm_num))]
  norm_num

theorem binary64_radius :
    binary64 (200 * (3602879701896397 / 4503599627370496)) = 160 := by
  rw [binary64_eval 7 (160 * 2 ^ 45) (by norm_num) (by norm_num [abs_of_pos])
    (by norm_num [abs_of_pos]) (roundHalfEven_eq _ (by norm_num) (by norm_num))]
  norm_num

/-! ## The sample index -/

theorem rounded_product_lt {H : Host} (hf : H.Faithful) {i n N : ℕ}
    (hb : i < n) (hbN : n ≤ N) (hN : N < 2 ^ 53) :
    H.rnd (H.rnd ((i : ℚ) / n) * N) < N := by
  have hbpos : (0 : ℚ) < n := by exact_mod_cast (by omega : 0 < n)
  have hNpos : (0 : ℚ) < N := by exact_mod_cast (by omega : 0 < N)
  have hq0 : 0 ≤ H.rnd ((i : ℚ) / n) := hf.rnd_nonneg (by positivity)
  have hx : (i : ℚ) / n ≤ 1 - 1 / N := by
    have h1 : (i : ℚ) + 1 ≤ n := by exact_mod_cast hb
    have h2 : (n : ℚ) ≤ N := by exact_mod_cast hbN
    have h3 : (1 : ℚ) / N ≤ 1 / n := one_div_le_one_div_of_le hbpos h2
    have h4 : (i : ℚ) / n ≤ 1 - 1 / n := by
      rw [div_le_iff₀ hbpos, sub_mul, one_div, inv_mul_cancel₀ hbpos.ne']
      linarith
    linarith
  rcases le_or_lt N (2 ^ 52) with hle | hgt
  · -- the quotient rounds to at most 1 - 2^-52
    have hp : Representable (((2 ^ 52 - 1 : ℕ) : ℚ) / 2 ^ 52) :=
      representable_scaled (by norm_num) (by norm_num)
    have hq : H.rnd ((i : ℚ) / n) ≤ ((2 ^ 52 - 1 : ℕ) : ℚ) / 2 ^ 52 := by
      apply hf.rnd_le hp
      have : (1 : ℚ) / 2 ^ 52 ≤ 1 / N :=
        one_div_le_one_div_of_le hNpos (by exact_mod_cast hle)
      have e : (((2 ^ 52 - 1 : ℕ) : ℚ) / 2 ^ 52) = 1 - 1 / 2 ^ 52 := by norm_num
      rw [e]; linarith
    -- a binary64 value strictly below N that bounds the product
    set k := Nat.log 2 N with hk
    have hk1 : 2 ^ k ≤ N := Nat.pow_log_le_self 2 (by omega)
    have hk2 : N < 2 ^ (k + 1) := Nat.lt_pow_succ_log_self (by norm_num) N
    have hk52 : k ≤ 52 := by
      by_contra hc
      have : 2 ^ 53 ≤ 2 ^ k := Nat.pow_le_pow_right (by norm_num) (by omega)
      omega
    have hm : N * 2 ^ (52 - k) - 1 < 2 ^ 53 := by
      have : N * 2 ^ (52 - k) < 2 ^ (k + 1) * 2 ^ (52 - k) :=
        Nat.mul_lt_mul_of_pos_right hk2 (by positivity)
      rw [← pow_add, show k + 1 + (52 - k) = 53 by omega] at this
      omega
    have hd : Representable (((N * 2 ^ (52 - k) - 1 : ℕ) : ℚ) / 2 ^ (52 - k)) :=
      representable_scaled hm (by omega)
    have hmpos : 1 ≤ N * 2 ^ (52 - k) := Nat.mul_pos (by omega) (by positivity)
    have hdv : (((N * 2 ^ (52 - k) - 1 : ℕ) : ℚ) / 2 ^ (52 - k)) = N - 1 / 2 ^ (52 - k) := by
      rw [Nat.cast_sub hmpos]; push_cast
      field_simp
    have hprod : H.rnd ((i : ℚ) / n) * N ≤ N - 1 / 2 ^ (52 - k) := by
      have h1 : H.rnd ((i : ℚ) / n) * N ≤ (((2 ^ 52 - 1 : ℕ) : ℚ) / 2 ^ 52) * N :=
        mul_le_mul_of_nonneg_right hq hNpos.le
      have e : (((2 ^ 52 - 1 : ℕ) : ℚ) / 2 ^ 52) * N = N - N / 2 ^ 52 := by
        norm_num; ring
      have h2 : (1 : ℚ) / 2 ^ (52 - k) ≤ N / 2 ^ 52 := by
        rw [div_le_div_iff₀ (by positivity) (by positivity)]
        have : (2 : ℚ) ^ 52 = 2 ^ k * 2 ^ (52 - k) := by
          rw [← pow_add]; congr 1; omega
        rw [this, one_mul]
        have : ((2 : ℚ) ^ k) ≤ N := by exact_mod_cast hk1
        exact mul_le_mul_of_nonneg_right this (by positivity)
      linarith
    have := hf.rnd_le hd (hdv ▸ hprod)
    rw [hdv] at this
    have : (0 : ℚ) < 1 / 2 ^ (52 - k) := by positivity
    linarith
  · -- 2^52 < N < 2^53: the binary64 values next to N are integers
    have hp : Representable (((2 ^ 53 - 1 : ℕ) : ℚ) / 2 ^ 53) :=
      representable_scaled (by norm_num) (by norm_num)
    have hq : H.rnd ((i : ℚ) / n) ≤ ((2 ^ 53 - 1 : ℕ) : ℚ) / 2 ^ 53 := by
      apply hf.rnd_le hp
      have : (1 : ℚ) / 2 ^ 53 ≤ 1 / N :=
        one_div_le_one_div_of_le hNpos (by exact_mod_cast hN.le)
      have e : (((2 ^ 53 - 1 : ℕ) : ℚ) / 2 ^ 53) = 1 - 1 / 2 ^ 53 := by norm_num
      rw [e]; linarith
    have hprod : H.rnd ((i : ℚ) / n) * N < N - 1 / 2 := by
      have h1 : H.rnd ((i : ℚ) / n) * N ≤ (((2 ^ 53 - 1 : ℕ) : ℚ) / 2 ^ 53) * N :=
        mul_le_mul_of_nonneg_right hq hNpos.le
      have e : (((2 ^ 53 - 1 : ℕ) : ℚ) / 2 ^ 53) * N = N - N / 2 ^ 53 := by
        norm_num; ring
      have h2 : (1 : ℚ) / 2 < N / 2 ^ 53 := by
        rw [div_lt_div_iff₀ (by positivity) (by positivity)]
        have : ((2 : ℚ) ^ 52) < N := by exact_mod_cast hgt
        linarith
      linarith
    have hd : Representable ((N - 1 : ℕ) : ℚ) := representable_natCast (by omega)
    have hdv : ((N - 1 : ℕ) : ℚ) = N - 1 := by
      rw [Nat.cast_sub (by omega)]; simp
    have hn := hf.nearest (H.rnd ((i : ℚ) / n) * N) _ hd
    rw [hdv] at hn
    have h3 := le_abs_self (H.rnd (H.rnd ((i : ℚ) / n) * N) - H.rnd ((i : ℚ) / n) * N)
    rcases abs_cases ((N : ℚ) - 1 - H.rnd ((i : ℚ) / n) * N) with ⟨h4, _⟩ | ⟨h4, _⟩ <;>
      linarith

theorem exact_product_lt {H : Host} (he : H.Exact) {i n N : ℕ} (hb : i < n) (hN : 0 < N) :
    H.rnd (H.rnd ((i : ℚ) / n) * N) < N := by
  rw [he, he]
  have hbpos : (0 : ℚ) < n := by exact_mod_cast (by omega : 0 < n)
  have hNpos : (0 : ℚ) < N := by exact_mod_cast hN
  have : (i : ℚ) / n < 1 := by
    rw [div_lt_one hbpos]; exact_mod_cast hb
  calc (i : ℚ) / n * N < 1 * N := mul_lt_mul_of_pos_right this hNpos
    _ = N := one_mul _

/-- C1. For a sample array of length `N ≥ 1`, a bar count with
`1 ≤ barCount ≤ N` and a bar index `0 ≤ i < barCount`, the index
`Math.floor((i / barCount) * N)` computed by `drawVisualizer` lies in
`[0, N - 1]`, and the read `dataArray[dataIndex]` finds an element.  This holds
under round-to-nearest arithmetic for every length a JavaScript array can have
(below `2 ^ 53`), and for every length at all when arithmetic is exact. -/
theorem dataIndex_in_bounds (H : Host) (hf : H.Faithful) (dataArray : List (Fin 256))
    (barCount : ℤ) (i : ℕ) (hN : 1 ≤ dataArray.length)
    (hlen : dataArray.length < 2 ^ 53 ∨ H.Exact)
    (h1 : 1 ≤ barCount) (h2 : barCount ≤ dataArray.length) (hi : (i : ℤ) < barCount) :
    0 ≤ dataIndex H i barCount dataArray.length ∧
      dataIndex H i barCount dataArray.length ≤ (dataArray.length : ℤ) - 1 ∧
      ∃ b, sampleAt dataArray (dataIndex H i barCount dataArray.length) = some b := by
  lift barCount to ℕ using (by omega) with n
  have hin : i < n := by exact_mod_cast hi
  have hnN : n ≤ dataArray.length := by exact_mod_cast h2
  have h0 : 0 ≤ dataIndex H i n dataArray.length := by
    unfold dataIndex
    exact Int.floor_nonneg.mpr
      (hf.rnd_nonneg (mul_nonneg (hf.rnd_nonneg (by positivity)) (by positivity)))
  have hlt : dataIndex H i n dataArray.length < dataArray.length := by
    unfold dataIndex
    rw [Int.floor_lt]
    push_cast
    rcases hlen with h | h
    · exact rounded_product_lt hf hin hnN h
    · exact exact_product_lt h hin (by omega)
  refine ⟨h0, by omega, ?_⟩
  have hidx : (dataIndex H i n dataArray.length).toNat < dataArray.length := by omega
  exact ⟨dataArray[(dataIndex H i n dataArray.length).toNat], by
    simp [sampleAt, h0, List.getElem?_eq_getElem hidx]⟩

theorem dataIndex_in_bounds_witness :
    0 ≤ dataIndex (binary64Host exactHost.cos exactHost.sin) 59 60
        (List.replicate 1024 (0 : Fin 256)).length ∧
      dataIndex (binary64Host exactHost.cos exactHost.sin) 59 60
          (List.replicate 1024 (0 : Fin 256)).length
        ≤ ((List.replicate 1024 (0 : Fin 256)).length : ℤ) - 1 ∧
      ∃ b, sampleAt (List.replicate 1024 (0 : Fin 256))
        (dataIndex (binary64Host exactHost.cos exactHost.sin) 59 60
          (List.replicate 1024 (0 : Fin 256)).length) = some b :=
  dataIndex_in_bounds (binary64Host exactHost.cos exactHost.sin)
    (binary64Host_faithful _ _) (List.replicate 1024 0) 60 59
    (by rw [List.length_replicate]; norm_num) (Or.inl (by rw [List.length_replicate]; norm_num))
    (by norm_num) (by rw [List.length_replicate]; norm_num) (by norm_num)

/-! ## The bar height -/

theorem scaledHeight_nonneg {H : Host} (hf : H.Faithful) (b : Fin 256) {s : ℤ}
    (hs : 0 ≤ s) : 0 ≤ scaledHeight H s b := by
  have hs' : (0 : ℚ) ≤ s := by exact_mod_cast hs
  unfold scaledHeight
  exact hf.rnd_nonneg
    (mul_nonneg (hf.rnd_nonneg (by positivity)) (hf.rnd_nonneg (by positivity)))

theorem barHeight_nonneg {H : Host} (hf : H.Faithful) (b : Fin 256) {s : ℤ}
    (hs : 0 ≤ s) : 0 ≤ barHeight H s b :=
  le_min (scaledHeight_nonneg hf b hs) zero_le_one

theorem rnd_zero {H : Host} (hf : H.Faithful) : H.rnd 0 = 0 :=
  hf.rnd_eq representable_zero

theorem rnd_one {H : Host} (hf : H.Faithful) : H.rnd 1 = 1 := by
  simpa using hf.rnd_natCast (n := 1) (by norm_num)

theorem rnd_two {H : Host} (hf : H.Faithful) : H.rnd 2 = 2 := by
  simpa using hf.rnd_natCast (n := 2) (by norm_num)

theorem representable_one : Representable 1 := by
  simpa using representable_natCast (n := 1) (by norm_num)

theorem scaledHeight_full {H : Host} (hf : H.Faithful) : scaledHeight H 100 255 = 2 := by
  have e1 : (((255 : Fin 256) : ℕ) : ℚ) / 255 = 1 := by
    rw [show ((255 : Fin 256) : ℕ) = 255 from rfl]; norm_num
  have e2 : (((100 : ℤ) : ℚ)) / 50 = 2 := by norm_num
  simp only [scaledHeight, e1, e2, rnd_one hf, rnd_two hf, one_mul]

theorem scaledHeight_neutral {H : Host} (hf : H.Faithful) :
    scaledHeight H 50 127 = H.rnd (127 / 255) := by
  have e1 : (((127 : Fin 256) : ℕ) : ℚ) / 255 = 127 / 255 := by
    rw [show ((127 : Fin 256) : ℕ) = 127 from rfl]; norm_num
  have e2 : (((50 : ℤ) : ℚ)) / 50 = 1 := by norm_num
  simp only [scaledHeight, e1, e2, rnd_one hf, mul_one, hf.idem]

theorem rnd_neutral_lt_one {H : Host} (hf : H.Faithful) : H.rnd (127 / 255) < 1 := by
  have hp : Representable ((1 : ℕ) / 2 ^ 1) := representable_scaled (by norm_num) (by norm_num)
  have := hf.rnd_le hp (x := 127 / 255) (by norm_num)
  have e : (((1 : ℕ) : ℚ) / 2 ^ 1) < 1 := by norm_num
  linarith

theorem rnd_neutral_near {H : Host} (hf : H.Faithful) :
    |H.rnd (127 / 255) - 127 / 255| ≤ 1 / 2 ^ 55 := by
  have hp : Representable (((8971876904722400 : ℕ) : ℚ) / 2 ^ 54) :=
    representable_scaled (by norm_num) (by norm_num)
  refine (hf.nearest (127 / 255) _ hp).trans ?_
  rw [abs_le]; constructor <;> norm_num

theorem normal_of_ge {x : ℚ} (h : 1 / 2 ^ 20 ≤ x) : 2 ^ (-1022 : ℤ) ≤ x := by
  have h1 : (2 : ℚ) ^ (-1022 : ℤ) ≤ 2 ^ (-20 : ℤ) :=
    zpow_le_zpow_right₀ (by norm_num) (by norm_num)
  have h2 : (2 : ℚ) ^ (-20 : ℤ) = 1 / 2 ^ 20 := by norm_num
  exact h1.trans (h2.le.trans h)

theorem normal_of_le {x : ℚ} (h : x ≤ 2 ^ 20) : x < 2 ^ (1023 : ℤ) := by
  have h1 : (2 : ℚ) ^ (21 : ℤ) ≤ 2 ^ (1023 : ℤ) :=
    zpow_le_zpow_right₀ (by norm_num) (by norm_num)
  have h2 : (2 : ℚ) ^ (21 : ℤ) = 2 ^ 21 := by norm_num
  have h3 : (2 : ℚ) ^ 20 < 2 ^ 21 := by norm_num
  exact lt_of_lt_of_le (lt_of_le_of_lt h h3) (h2.symm.le.trans h1)

/-- Three rounded operations `rnd (rnd a * rnd t)` stay within a relative
`4 * 2 ^ -53` of the rational product when that is at most 1, and reach 1 when
the rational product is at least `12751 / 12750`. -/
theorem rounded_product_near {H : Host} (hf : H.Faithful) {a t : ℚ}
    (ha : a = 0 ∨ 1 / 255 ≤ a) (ha1 : a ≤ 1) (ht : t = 0 ∨ 1 / 50 ≤ t) :
    (a * t ≤ 1 → |H.rnd (H.rnd a * H.rnd t) - a * t| ≤ a * t / 2 ^ 51) ∧
      (12751 / 12750 ≤ a * t → 1 ≤ H.rnd (H.rnd a * H.rnd t)) := by
  rcases ha with ha | ha
  · subst ha
    simp only [rnd_zero hf, zero_mul, sub_self, abs_zero, zero_div, le_refl, implies_true,
      true_and]
    intro h; norm_num at h
  rcases ht with ht | ht
  · subst ht
    simp only [rnd_zero hf, mul_zero, sub_self, abs_zero, zero_div, le_refl, implies_true,
      true_and]
    intro h; norm_num at h
  have ha0 : 0 < a := lt_of_lt_of_le (by norm_num) ha
  have ht0 : 0 < t := lt_of_lt_of_le (by norm_num) ht
  obtain ⟨al, au⟩ := hf.rnd_between (x := a) (normal_of_ge (by linarith))
    (normal_of_le (by linarith))
  have hδ : (1 : ℚ) / 2 ^ 51 = 4 * (1 / 2 ^ 53) := by norm_num
  have hδ0 : (0 : ℚ) < 1 / 2 ^ 53 := by positivity
  have hδ1 : (1 : ℚ) / 2 ^ 53 ≤ 1 / 1000000 := by norm_num
  constructor
  · intro hp
    have ht1 : t ≤ 255 := by
      by_contra hc
      push_neg at hc
      have : 1 / 255 * 255 < a * t := by
        calc 1 / 255 * 255 < 1 / 255 * t := by nlinarith
          _ ≤ a * t := mul_le_mul_of_nonneg_right ha ht0.le
      linarith
    obtain ⟨tl, tu⟩ := hf.rnd_between (x := t) (normal_of_ge (by linarith))
      (normal_of_le (by linarith))
    rw [div_eq_mul_one_div (a * t), hδ]
    obtain ⟨δ, hδd⟩ : ∃ δ : ℚ, 1 / 2 ^ 53 = δ := ⟨_, rfl⟩
    rw [hδd] at al au tl tu hδ0 hδ1 ⊢
    have hra : 0 ≤ H.rnd a := le_trans (mul_nonneg ha0.le (by linarith)) al
    have hrt : 0 ≤ H.rnd t := le_trans (mul_nonneg ht0.le (by linarith)) tl
    have hat : 1 / 12750 ≤ a * t := by
      calc (1 : ℚ) / 12750 = 1 / 255 * (1 / 50) := by norm_num
        _ ≤ a * t := mul_le_mul ha ht (by norm_num) ha0.le
    have yl : a * t * (1 - 2 * δ) ≤ H.rnd a * H.rnd t := by
      have := mul_le_mul al tl (mul_nonneg ht0.le (by linarith)) hra
      nlinarith [mul_pos ha0 ht0, sq_nonneg δ]
    have yu : H.rnd a * H.rnd t ≤ a * t * (1 + 2 * δ + δ ^ 2) := by
      have := mul_le_mul au tu hrt (mul_nonneg ha0.le (by linarith))
      nlinarith [mul_pos ha0 ht0]
    have hy1 : 1 / 2 ^ 20 ≤ H.rnd a * H.rnd t := by
      have : (1 : ℚ) / 2 ^ 20 ≤ 1 / 12750 * (1 - 2 * δ) := by
        have : (1 : ℚ) / 2 ^ 20 ≤ 1 / 12750 * (1 - 2 * (1 / 1000000)) := by norm_num
        nlinarith
      nlinarith
    have hy2 : H.rnd a * H.rnd t ≤ 2 ^ 20 := by
      have : a * t * (1 + 2 * δ + δ ^ 2) ≤ 2 := by nlinarith
      have : (2 : ℚ) ≤ 2 ^ 20 := by norm_num
      linarith
    obtain ⟨ul, uu⟩ := hf.rnd_between (x := H.rnd a * H.rnd t) (normal_of_ge hy1)
      (normal_of_le hy2)
    rw [hδd] at ul uu
    have hq0 := mul_pos ha0 ht0
    generalize H.rnd (H.rnd a * H.rnd t) = u at *
    generalize H.rnd a * H.rnd t = y at *
    generalize a * t = q at *
    rw [abs_le]
    constructor
    · have h1 := mul_le_mul_of_nonneg_right yl (by linarith only [hδ1] : 0 ≤ 1 - δ)
      have h3 : 0 ≤ q * δ := (mul_pos hq0 hδ0).le
      have h4 : 0 ≤ q * δ ^ 2 := mul_nonneg hq0.le (sq_nonneg δ)
      linarith only [h1, ul, h3, h4]
    · have h1 := mul_le_mul_of_nonneg_right yu (by linarith only [hδ0] : 0 ≤ 1 + δ)
      have h5 : 0 ≤ 1 - 3 * δ - δ ^ 2 := by nlinarith only [hδ0, hδ1]
      have h2 : 0 ≤ q * δ * (1 - 3 * δ - δ ^ 2) := mul_nonneg (mul_pos hq0 hδ0).le h5
      linarith only [h1, uu, h2]
  · intro hp
    apply hf.le_rnd representable_one
    have hal : a * (1 - 1 / 1000000) ≤ H.rnd a :=
      le_trans (mul_le_mul_of_nonneg_left (by linarith) ha0.le) al
    have hra : 0 ≤ H.rnd a := le_trans (mul_nonneg ha0.le (by norm_num)) hal
    rcases le_or_lt t (2 ^ 20) with hle | hgt
    · obtain ⟨tl, _⟩ := hf.rnd_between (x := t) (normal_of_ge (by linarith)) (normal_of_le hle)
      have htl : t * (1 - 1 / 1000000) ≤ H.rnd t :=
        le_trans (mul_le_mul_of_nonneg_left (by linarith) ht0.le) tl
      have h1 := mul_le_mul hal htl (mul_nonneg ht0.le (by norm_num)) hra
      have e : a * (1 - 1 / 1000000) * (t * (1 - 1 / 1000000))
          = (1 - 1 / 1000000) ^ 2 * (a * t) := by ring
      rw [e] at h1
      have h2 : (1 : ℚ) ≤ (1 - 1 / 1000000) ^ 2 * (12751 / 12750) := by norm_num
      have h3 : (1 - 1 / 1000000 : ℚ) ^ 2 * (12751 / 12750) ≤ (1 - 1 / 1000000) ^ 2 * (a * t) :=
        mul_le_mul_of_nonneg_left hp (by norm_num)
      exact h2.trans (h3.trans h1)
    · have hr : Representable (((2 ^ 20 : ℕ) : ℚ)) := representable_natCast (by norm_num)
      have h20 : (((2 ^ 20 : ℕ) : ℚ)) ≤ H.rnd t := hf.le_rnd hr (by push_cast; exact hgt.le)
      have h1 := mul_le_mul hal h20 (by positivity) hra
      have h2 : (1 : ℚ) ≤ 1 / 255 * (1 - 1 / 1000000) * ((2 ^ 20 : ℕ) : ℚ) := by norm_num
      have h3 : (1 : ℚ) / 255 * (1 - 1 / 1000000) * ((2 ^ 20 : ℕ) : ℚ)
          ≤ a * (1 - 1 / 1000000) * ((2 ^ 20 : ℕ) : ℚ) :=
        mul_le_mul_of_nonneg_right (mul_le_mul_of_nonneg_right ha (by norm_num)) (by positivity)
      exact h2.trans (h3.trans h1)

theorem rationalProduct_cases (b : Fin 256) {s : ℤ} (hs : 0 ≤ s) :
    ((((b : ℕ) : ℚ) / 255 = 0 ∨ 1 / 255 ≤ ((b : ℕ) : ℚ) / 255) ∧ ((b : ℕ) : ℚ) / 255 ≤ 1 ∧
      ((s : ℚ) / 50 = 0 ∨ 1 / 50 ≤ (s : ℚ) / 50)) ∧
      (rationalProduct b s < 1 → rationalProduct b s ≤ 12749 / 12750) ∧
      (1 < rationalProduct b s → 12751 / 12750 ≤ rationalProduct b s) := by
  have hb := b.isLt
  refine ⟨⟨?_, ?_, ?_⟩, ?_, ?_⟩
  · rcases Nat.eq_zero_or_pos (b : ℕ) with h | h
    · left; rw [h]; norm_num
    · right
      have : (1 : ℚ) ≤ ((b : ℕ) : ℚ) := by exact_mod_cast h
      exact div_le_div_of_nonneg_right this (by norm_num)
  · have : ((b : ℕ) : ℚ) ≤ 255 := by exact_mod_cast (by omega : (b : ℕ) ≤ 255)
    rw [div_le_one (by norm_num)]; exact this
  · rcases hs.eq_or_lt with h | h
    · left; rw [← h]; norm_num
    · right
      have : (1 : ℚ) ≤ (s : ℚ) := by exact_mod_cast h
      exact div_le_div_of_nonneg_right this (by norm_num)
  · intro h
    have e : rationalProduct b s = (((b : ℕ) * s : ℤ) : ℚ) / 12750 := by
      unfold rationalProduct; push_cast; ring
    rw [e] at h ⊢
    rw [div_lt_one (by norm_num)] at h
    have h' : ((b : ℕ) * s : ℤ) < 12750 := by exact_mod_cast h
    have h'' : ((((b : ℕ) * s : ℤ)) : ℚ) ≤ 12749 := by exact_mod_cast (by omega : ((b : ℕ) * s : ℤ) ≤ 12749)
    exact div_le_div_of_nonneg_right h'' (by norm_num)
  · intro h
    have e : rationalProduct b s = (((b : ℕ) * s : ℤ) : ℚ) / 12750 := by
      unfold rationalProduct; push_cast; ring
    rw [e] at h ⊢
    rw [one_lt_div (by norm_num)] at h
    have h' : 12750 < ((b : ℕ) * s : ℤ) := by exact_mod_cast h
    have h'' : (12751 : ℚ) ≤ ((((b : ℕ) * s : ℤ)) : ℚ) := by exact_mod_cast (by omega : 12751 ≤ ((b : ℕ) * s : ℤ))
    exact div_le_div_of_nonneg_right h'' (by norm_num)

theorem scaledHeight_near {H : Host} (hf : H.Faithful) (b : Fin 256) {s : ℤ} (hs : 0 ≤ s) :
    (rationalProduct b s ≤ 1 →
        |scaledHeight H s b - rationalProduct b s| ≤ rationalProduct b s / 2 ^ 51) ∧
      (1 < rationalProduct b s → 1 ≤ scaledHeight H s b) := by
  obtain ⟨⟨ha, ha1, ht⟩, _, hgt⟩ := rationalProduct_cases b hs
  obtain ⟨h1, h2⟩ := rounded_product_near hf ha ha1 ht
  exact ⟨h1, fun h => h2 (hgt h)⟩

theorem barHeight_near {H : Host} (hf : H.Faithful) (b : Fin 256) {s : ℤ} (hs : 0 ≤ s) :
    (rationalProduct b s < 1 →
        barHeight H s b = scaledHeight H s b ∧
          |barHeight H s b - rationalProduct b s| ≤ 1 / 2 ^ 51) ∧
      (1 < rationalProduct b s → barHeight H s b = 1) ∧
      |barHeight H s b - min (rationalProduct b s) 1| ≤ 1 / 2 ^ 51 := by
  obtain ⟨_, hlt, _⟩ := rationalProduct_cases b hs
  obtain ⟨hle, hgt⟩ := scaledHeight_near hf b hs (H := H)
  have hp0 : 0 ≤ rationalProduct b s := by
    have : (0 : ℚ) ≤ s := by exact_mod_cast hs
    unfold rationalProduct; positivity
  have hsmall : ∀ {p : ℚ}, 0 ≤ p → p ≤ 1 → p / 2 ^ 51 ≤ 1 / 2 ^ 51 := fun _ h1 =>
    div_le_div_of_nonneg_right h1 (by positivity)
  have c1 : rationalProduct b s < 1 →
      barHeight H s b = scaledHeight H s b ∧
        |barHeight H s b - rationalProduct b s| ≤ 1 / 2 ^ 51 := by
    intro h
    have h1 := hle h.le
    have h2 := hlt h
    have h3 := (abs_le.mp h1).2
    have hu : scaledHeight H s b < 1 := by
      have : rationalProduct b s / 2 ^ 51 ≤ 1 / 12750 / 2 := by
        have := hsmall hp0 h.le
        have : (1 : ℚ) / 2 ^ 51 ≤ 1 / 12750 / 2 := by norm_num
        linarith
      linarith
    have e : barHeight H s b = scaledHeight H s b := min_eq_left hu.le
    exact ⟨e, by rw [e]; exact h1.trans (hsmall hp0 h.le)⟩
  have c2 : 1 < rationalProduct b s → barHeight H s b = 1 :=
    fun h => min_eq_right (hgt h)
  refine ⟨c1, c2, ?_⟩
  rcases lt_trichotomy (rationalProduct b s) 1 with h | h | h
  · rw [min_eq_left h.le]; exact (c1 h).2
  · have h1 := hle h.le
    rw [h] at h1 ⊢
    rw [min_self]
    have h2 := abs_le.mp h1
    have hb : barHeight H s b = min (scaledHeight H s b) 1 := rfl
    rw [hb, abs_le]
    constructor
    · rcases min_cases (scaledHeight H s b) 1 with ⟨e, _⟩ | ⟨e, _⟩ <;> rw [e] <;>
        linarith [h2.1]
    · have := min_le_right (scaledHeight H s b) 1
      have : (0 : ℚ) ≤ 1 / 2 ^ 51 := by positivity
      linarith
  · rw [c2 h, min_eq_right h.le, sub_self, abs_zero]; positivity

theorem rationalProduct_tie : rationalProduct 50 255 = 1 := by
  unfold rationalProduct
  rw [show ((50 : Fin 256) : ℕ) = 50 from rfl]; norm_num

/-- C2, as stated, fails on binary64 arithmetic: for the sample byte 50 and the
sensitivity 255 the rational product `(b / 255) * (s / 50)` is exactly 1, yet
the height the code computes is `1 - 2 ^ -53`, not 1. -/
theorem barHeight_short_of_one :
    rationalProduct 50 255 = 1 ∧
      barHeight (binary64Host exactHost.cos exactHost.sin) 255 50
        = 9007199254740991 / 9007199254740992 ∧
      (9007199254740991 / 9007199254740992 : ℚ) < 1 := by
  refine ⟨rationalProduct_tie, ?_, by norm_num⟩
  have e1 : (((50 : Fin 256) : ℕ) : ℚ) / 255 = 50 / 255 := by
    rw [show ((50 : Fin 256) : ℕ) = 50 from rfl]; norm_num
  have e2 : (((255 : ℤ) : ℚ)) / 50 = 255 / 50 := by norm_num
  simp only [barHeight, scaledHeight, binary64Host, e1, e2, binary64_fifth,
    binary64_five_point_one, binary64_product_below_one]
  exact min_eq_left (by norm_num)

/-- C2, amended. For a sample byte `b` and a sensitivity `s ≥ 0` the height used
for a bar is `min(P, 1)`, where `P` is the Number computed as
`(b / 255) * (s / 50)`, each operation rounded to nearest: it lies in `[0, 1]`,
equals `P` when `P < 1` and equals 1 when `P ≥ 1`.  Against the rational
product `p = (b / 255) * (s / 50)`: the height is within `2 ^ -51` of
`min(p, 1)`, equals `P` when `p < 1` and equals exactly 1 when `p > 1` (when
`p = 1` it may fall short of 1 by rounding); in exact arithmetic it is
`min(p, 1)`.  With `s = 100, b = 255`: `P = 2`, height 1, outer radius the
Number `10 + 0.7 R`.  With `s = 50, b = 127`: the height is the Number
`127 / 255`, within `2 ^ -55` of the rational `127 / 255`, and the outer radius
the Number `10 + height * 0.7 R`. -/
theorem barHeight_clamped (H : Host) (hf : H.Faithful) (b : Fin 256) (s : ℤ) (hs : 0 ≤ s) :
    barHeight H s b
        = min (H.rnd (H.rnd (((b : ℕ) : ℚ) / 255) * H.rnd ((s : ℚ) / 50))) 1 ∧
      0 ≤ barHeight H s b ∧ barHeight H s b ≤ 1 ∧
      (scaledHeight H s b < 1 → barHeight H s b = scaledHeight H s b) ∧
      (1 ≤ scaledHeight H s b → barHeight H s b = 1) ∧
      (rationalProduct b s < 1 →
        barHeight H s b = scaledHeight H s b ∧
          |barHeight H s b - rationalProduct b s| ≤ 1 / 2 ^ 51) ∧
      (1 < rationalProduct b s → barHeight H s b = 1) ∧
      |barHeight H s b - min (rationalProduct b s) 1| ≤ 1 / 2 ^ 51 ∧
      (H.Exact → barHeight H s b = min (rationalProduct b s) 1) ∧
      (scaledHeight H 100 255 = 2 ∧ barHeight H 100 255 = 1 ∧
        ∀ R, barLength H R (barHeight H 100 255) = H.rnd (10 + H.rnd (R * H.rnd (7 / 10)))) ∧
      (barHeight H 50 127 = H.rnd (127 / 255) ∧
        |barHeight H 50 127 - 127 / 255| ≤ 1 / 2 ^ 55 ∧
        ∀ R, barLength H R (barHeight H 50 127)
          = H.rnd (10 + H.rnd (H.rnd (127 / 255) * H.rnd (R * H.rnd (7 / 10))))) := by
  have hfull : barHeight H 100 255 = 1 := by
    simp only [barHeight, scaledHeight_full hf]; norm_num
  have hneutral : barHeight H 50 127 = H.rnd (127 / 255) := by
    simp only [barHeight, scaledHeight_neutral hf]
    exact min_eq_left (rnd_neutral_lt_one hf).le
  obtain ⟨n1, n2, n3⟩ := barHeight_near hf b hs (H := H)
  refine ⟨rfl, barHeight_nonneg hf b hs, min_le_right _ _, fun h => min_eq_left h.le,
    fun h => min_eq_right h, n1, n2, n3, fun he => ?_,
    ⟨scaledHeight_full hf, hfull, fun R => ?_⟩, ⟨hneutral, ?_, fun R => ?_⟩⟩
  · simp only [barHeight, scaledHeight, rationalProduct, he _]
  · rw [hfull]; simp only [barLength, one_mul, hf.idem]
  · rw [hneutral]; exact rnd_neutral_near hf
  · rw [hneutral]; rfl

theorem barHeight_clamped_witness :
    (0 : ℤ) ≤ 50 ∧
      0 ≤ barHeight (binary64Host exactHost.cos exactHost.sin) 50 127 ∧
      barHeight (binary64Host exactHost.cos exactHost.sin) 50 127 ≤ 1 ∧
      |barHeight (binary64Host exactHost.cos exactHost.sin) 50 127
          - min (rationalProduct 127 50) 1| ≤ 1 / 2 ^ 51 :=
  have h := barHeight_clamped (binary64Host exactHost.cos exactHost.sin)
    (binary64Host_faithful _ _) 127 50 (by norm_num)
  ⟨by norm_num, h.2.1, h.2.2.1, h.2.2.2.2.2.2.2.1⟩

/-! ## The bar segment -/

theorem radius_nonneg {H : Host} (hf : H.Faithful) (width height : ℕ) :
    0 ≤ radius H width height := by
  unfold radius center
  exact hf.rnd_nonneg (mul_nonneg
    (le_min (hf.rnd_nonneg (by positivity)) (hf.rnd_nonneg (by positivity)))
    (hf.rnd_nonneg (by norm_num)))

theorem representable_ten : Representable 10 := by
  simpa using representable_natCast (n := 10) (by norm_num)

theorem barLength_ge_ten {H : Host} (hf : H.Faithful) {R h : ℚ} (hR : 0 ≤ R) (hh : 0 ≤ h) :
    10 ≤ barLength H R h := by
  unfold barLength
  apply hf.le_rnd representable_ten
  have : 0 ≤ H.rnd (h * H.rnd (R * H.rnd (7 / 10))) :=
    hf.rnd_nonneg (mul_nonneg hh (hf.rnd_nonneg (mul_nonneg hR (hf.rnd_nonneg (by norm_num)))))
  linarith

theorem dataIndex_exactHost_zero (barCount : ℤ) (N : ℕ) :
    dataIndex exactHost 0 barCount N = 0 := by
  simp [dataIndex, exactHost]

theorem sampleAt_replicate_zero {n : ℕ} (hn : 0 < n) (b : Fin 256) :
    sampleAt (List.replicate n b) 0 = some b := by
  simp [sampleAt, List.getElem?_replicate, hn]

theorem sampleAt_reference :
    sampleAt (List.replicate 1024 (50 : Fin 256))
      (dataIndex exactHost 0 60 (List.replicate 1024 (50 : Fin 256)).length) = some 50 := by
  rw [dataIndex_exactHost_zero]
  exact sampleAt_replicate_zero (by norm_num) 50

theorem radius_reference {H : Host} (he : H.Exact) : radius H 400 400 = 160 := by
  simp only [radius, center, he _]; norm_num

theorem barHeight_reference : barHeight exactHost 50 50 = 10 / 51 := by
  have e : ((50 : Fin 256) : ℕ) = 50 := rfl
  simp only [barHeight, scaledHeight, exactHost, id, e]
  norm_num

/-- In exact arithmetic on the unit circle, the squared length of a bar segment
is the square of the difference of its two radii. -/
theorem drawBar_lengthSq {H : Host} (he : H.Exact) (hp : H.Pythagorean) (settings : Settings)
    (dataArray : List (Fin 256)) (width height i : ℕ) (b : Fin 256)
    (hb : sampleAt dataArray (dataIndex H i settings.barCount dataArray.length) = some b) :
    Primitive.lengthSq (drawBar H settings dataArray width height i)
      = some ((10 + barHeight H settings.sensitivity b * (radius H width height * (7 / 10))
          - radius H width height * (2 / 10)) ^ 2) := by
  have hc := hp (H.rnd (i * angleStep H settings.barCount))
  simp only [drawBar, hb, Option.map_some', Primitive.lengthSq, barLength, innerRadius]
  simp only [he _] at hc ⊢
  congr 1
  linear_combination
    ((10 + barHeight H settings.sensitivity b * (radius H width height * (7 / 10))
      - radius H width height * (2 / 10)) ^ 2) * hc

/-- C3, as stated, fails: on the 400x400 canvas with sensitivity 50, bar 0 over
a sample byte 50 is a segment of squared length `4 / 2601`, far below `10 ^ 2`. -/
theorem bar_segment_shorter_than_ten :
    Primitive.lengthSq
        (drawBar exactHost { sensitivity := 50, barCount := 60 } (List.replicate 1024 50)
          400 400 0) = some (4 / 2601) ∧
      (4 / 2601 : ℚ) < 10 ^ 2 := by
  constructor
  · have h := drawBar_lengthSq exactHost_exact exactHost_pythagorean
      { sensitivity := 50, barCount := 60 } (List.replicate 1024 50) 400 400 0 50
      sampleAt_reference
    rw [h]
    simp only [radius_reference exactHost_exact, barHeight_reference]
    norm_num
  · norm_num

theorem radius_binary64 (cos sin : ℚ → ℚ) : radius (binary64Host cos sin) 400 400 = 160 := by
  have e : (((400 : ℕ) : ℚ)) / 2 = 200 := by norm_num
  simp only [radius, center, binary64Host, e, binary64_two_hundred, min_self,
    binary64_four_fifths, binary64_radius]

theorem center_eq {H : Host} (hf : H.Faithful) {extent : ℕ} (h : extent < 2 ^ 53) :
    center H extent = (extent : ℚ) / 2 := by
  have := representable_scaled h (j := 1) (by norm_num)
  rw [pow_one] at this
  exact hf.rnd_eq this

theorem representable_center_add_ten {extent : ℕ} (h : extent + 20 < 2 ^ 53) :
    Representable ((extent : ℚ) / 2 + 10) := by
  have := representable_scaled h (j := 1) (by norm_num)
  rw [pow_one] at this
  have e : (((extent + 20 : ℕ) : ℚ)) / 2 = (extent : ℚ) / 2 + 10 := by push_cast; ring
  rwa [e] at this

/-- C3, amended. For a sample byte, a sensitivity `s ≥ 0` and any bar, the
segment `drawVisualizer` draws runs from the point at radius `0.2 R` to the
point placed at radius `barLength = 10 + height * 0.7 R` along the same angle,
and this outer radius is at least 10 whatever the signal; it is the distance
of the outer point from the centre, not the length of the segment.  Bar 0,
for which `Math.cos` gives 1 and `Math.sin` gives 0, lies on the horizontal
through the centre and its outer point is at least 10 units right of the
centre.  On the 400x400 canvas `R = 160`, in binary64 as in exact arithmetic. -/
theorem bar_outer_radius (H : Host) (hf : H.Faithful) (settings : Settings)
    (hs : 0 ≤ settings.sensitivity) (dataArray : List (Fin 256)) (width height i : ℕ)
    (b : Fin 256)
    (hb : sampleAt dataArray (dataIndex H i settings.barCount dataArray.length) = some b) :
    drawBar H settings dataArray width height i
        = .strokeLine
            (H.rnd (center H width + H.rnd (innerRadius H (radius H width height)
              * H.cos (H.rnd (i * angleStep H settings.barCount)))))
            (H.rnd (center H height + H.rnd (innerRadius H (radius H width height)
              * H.sin (H.rnd (i * angleStep H settings.barCount)))))
            (some (H.rnd (center H width
              + H.rnd (barLength H (radius H width height) (barHeight H settings.sensitivity b)
                * H.cos (H.rnd (i * angleStep H settings.barCount))))))
            (some (H.rnd (center H height
              + H.rnd (barLength H (radius H width height) (barHeight H settings.sensitivity b)
                * H.sin (H.rnd (i * angleStep H settings.barCount))))))
            (some (H.rnd (200 + H.rnd (barHeight H settings.sensitivity b * 100)))) 4 "round" ∧
      10 ≤ barLength H (radius H width height) (barHeight H settings.sensitivity b) ∧
      (i = 0 → H.cos 0 = 1 → H.sin 0 = 0 → width + 20 < 2 ^ 53 →
        drawBar H settings dataArray width height i
            = .strokeLine
                (H.rnd (center H width + innerRadius H (radius H width height)))
                (center H height)
                (some (H.rnd (center H width
                  + barLength H (radius H width height) (barHeight H settings.sensitivity b))))
                (some (center H height))
                (some (H.rnd (200 + H.rnd (barHeight H settings.sensitivity b * 100))))
                4 "round" ∧
          center H width + 10
            ≤ H.rnd (center H width
                + barLength H (radius H width height) (barHeight H settings.sensitivity b))) ∧
      (∀ cos sin, radius (binary64Host cos sin) 400 400 = 160) ∧
      (H.Exact → radius H 400 400 = 160) := by
  have hR := radius_nonneg hf width height
  have hL := barLength_ge_ten hf hR (barHeight_nonneg hf b hs)
  have hform : drawBar H settings dataArray width height i
      = .strokeLine
          (H.rnd (center H width + H.rnd (innerRadius H (radius H width height)
            * H.cos (H.rnd (i * angleStep H settings.barCount)))))
          (H.rnd (center H height + H.rnd (innerRadius H (radius H width height)
            * H.sin (H.rnd (i * angleStep H settings.barCount)))))
          (some (H.rnd (center H width
            + H.rnd (barLength H (radius H width height) (barHeight H settings.sensitivity b)
              * H.cos (H.rnd (i * angleStep H settings.barCount))))))
          (some (H.rnd (center H height
            + H.rnd (barLength H (radius H width height) (barHeight H settings.sensitivity b)
              * H.sin (H.rnd (i * angleStep H settings.barCount))))))
          (some (H.rnd (200 + H.rnd (barHeight H settings.sensitivity b * 100)))) 4 "round" := by
    simp only [drawBar, hb, Option.map_some']
  refine ⟨hform, hL, fun hi hc hsn hw => ⟨?_, ?_⟩, radius_binary64, fun he => radius_reference he⟩
  · rw [hform]
    subst hi
    have hang : H.rnd (((0 : ℕ) : ℚ) * angleStep H settings.barCount) = 0 := by
      rw [Nat.cast_zero, zero_mul]; exact rnd_zero hf
    have hin : H.rnd (innerRadius H (radius H width height))
        = innerRadius H (radius H width height) := hf.idem _
    have hbl : H.rnd (barLength H (radius H width height) (barHeight H settings.sensitivity b))
        = barLength H (radius H width height) (barHeight H settings.sensitivity b) := hf.idem _
    have hcy : H.rnd (center H height) = center H height := hf.idem _
    simp only [hang, hc, hsn, mul_one, mul_zero, rnd_zero hf, add_zero, hin, hbl, hcy]
  · rw [center_eq hf (by omega : width < 2 ^ 53)]
    exact hf.le_rnd (representable_center_add_ten hw) (by linarith)

theorem dataIndex_zero {H : Host} (hf : H.Faithful) (barCount : ℤ) (N : ℕ) :
    dataIndex H 0 barCount N = 0 := by
  simp [dataIndex, rnd_zero hf]

theorem sampleAt_reference_binary64 :
    sampleAt (List.replicate 1024 (50 : Fin 256))
      (dataIndex (binary64Host exactHost.cos exactHost.sin) 0 60
        (List.replicate 1024 (50 : Fin 256)).length) = some 50 := by
  rw [dataIndex_zero (binary64Host_faithful _ _)]
  exact sampleAt_replicate_zero (by norm_num) 50

theorem bar_outer_radius_witness :
    (0 : ℤ) ≤ 50 ∧
      sampleAt (List.replicate 1024 (50 : Fin 256))
        (dataIndex (binary64Host exactHost.cos exactHost.sin) 0 60
          (List.replicate 1024 (50 : Fin 256)).length) = some 50 ∧
      10 ≤ barLength (binary64Host exactHost.cos exactHost.sin)
        (radius (binary64Host exactHost.cos exactHost.sin) 400 400)
        (barHeight (binary64Host exactHost.cos exactHost.sin) 50 50) ∧
      center (binary64Host exactHost.cos exactHost.sin) 400 + 10
        ≤ binary64 (center (binary64Host exactHost.cos exactHost.sin) 400
            + barLength (binary64Host exactHost.cos exactHost.sin)
                (radius (binary64Host exactHost.cos exactHost.sin) 400 400)
                (barHeight (binary64Host exactHost.cos exactHost.sin) 50 50)) :=
  have h := bar_outer_radius (binary64Host exactHost.cos exactHost.sin)
    (binary64Host_faithful _ _) { sensitivity := 50, barCount := 60 } (by norm_num)
    (List.replicate 1024 50) 400 400 0 50 sampleAt_reference_binary64
  ⟨by norm_num, sampleAt_reference_binary64, h.2.1,
    (h.2.2.1 rfl (by norm_num [binary64Host, exactHost]) (by norm_num [binary64Host, exactHost])
      (by norm_num)).2⟩

/-! ## The sequence of primitives -/

theorem drawBars_done (H : Host) (d : List (Fin 256)) (i : ℕ) (s : State)
    (h : s.settings.barCount ≤ i) : drawBars H d i s = s := by
  rw [drawBars, if_neg (by omega)]

theorem drawBars_eq (H : Host) (d : List (Fin 256)) (k : ℕ) :
    ∀ (i : ℕ) (s : State), s.settings.barCount = ((i + k : ℕ) : ℤ) →
      drawBars H d i s =
        { s with
          surface := s.surface ++
            (List.range' i k).map (drawBar H s.settings d s.canvasWidth s.canvasHeight)
          sampleReads := s.sampleReads + k } := by
  induction k with
  | zero =>
    intro i s h
    rw [drawBars_done H d i s (by omega)]
    simp
  | succ k ih =>
    intro i s h
    rw [drawBars, if_pos (by omega), ih (i + 1) _ (by simp only []; omega)]
    simp [List.range'_succ, Nat.add_assoc, Nat.add_comm 1 k]

theorem drawBars_from_zero (H : Host) (d : List (Fin 256)) (s : State) :
    drawBars H d 0 s =
      { s with
        surface := s.surface ++
          (List.range s.settings.barCount.toNat).map
            (drawBar H s.settings d s.canvasWidth s.canvasHeight)
        sampleReads := s.sampleReads + s.settings.barCount.toNat } := by
  rcases le_or_lt 0 s.settings.barCount with h | h
  · rw [drawBars_eq H d s.settings.barCount.toNat 0 s (by omega), List.range_eq_range']
  · rw [drawBars_done H d 0 s (by omega)]
    have : s.settings.barCount.toNat = 0 := by omega
    simp [this]

theorem drawVisualizer_eq (H : Host) (s : State) (d : List (Fin 256))
    (hd : s.dataArray = some d) :
    drawVisualizer H s =
      ({ s with
          surface := s.surface ++ specSequence H s.settings d s.canvasWidth s.canvasHeight
          sampleReads := s.sampleReads + s.settings.barCount.toNat }, none) := by
  simp only [drawVisualizer, hd, drawBars_from_zero, specSequence, backgroundDisk, centerDisk,
    List.append_assoc]

theorem specSequence_length (H : Host) (settings : Settings) (d : List (Fin 256))
    (width height : ℕ) :
    (specSequence H settings d width height).length = settings.barCount.toNat + 2 := by
  simp [specSequence]

theorem specSequence_bar (H : Host) (settings : Settings) (d : List (Fin 256))
    (width height i : ℕ) (hi : i < settings.barCount.toNat) :
    (specSequence H settings d width height)[i + 1]?
      = some (drawBar H settings d width height i) := by
  simp only [specSequence, List.singleton_append, List.cons_append, List.getElem?_cons_succ]
  rw [List.getElem?_append_left (by simpa using hi)]
  simp [List.getElem?_range hi]

theorem issued_append (s t : State) (l : List Primitive) (h : t.surface = s.surface ++ l) :
    issued s t = l := by
  simp [issued, h]

theorem issued_drawVisualizer (H : Host) (s : State) (d : List (Fin 256))
    (hd : s.dataArray = some d) :
    issued s (drawVisualizer H s).1
      = specSequence H s.settings d s.canvasWidth s.canvasHeight :=
  issued_append _ _ _ (by rw [drawVisualizer_eq H s d hd])

/-- C4. For `barCount ≥ 1`, any sample array and any canvas size, `drawVisualizer`
throws nothing and paints exactly: the filled disk of radius `R` at the centre,
then one stroked segment per bar index `0 .. barCount - 1` in that order, then
the filled disk of radius 20 at the centre (`barCount + 2` primitives).  The
sequence is a function of the settings, the sample array and the canvas size,
so two calls that agree on these issue identical sequences. -/
theorem drawVisualizer_sequence (H : Host) (s : State) (d : List (Fin 256))
    (hd : s.dataArray = some d) (hb : 1 ≤ s.settings.barCount) :
    (drawVisualizer H s).2 = none ∧
      issued s (drawVisualizer H s).1
        = specSequence H s.settings d s.canvasWidth s.canvasHeight ∧
      ((specSequence H s.settings d s.canvasWidth s.canvasHeight).length : ℤ)
        = s.settings.barCount + 2 ∧
      (specSequence H s.settings d s.canvasWidth s.canvasHeight)[0]?
        = some (.fillDisk (center H s.canvasWidth) (center H s.canvasHeight)
            (radius H s.canvasWidth s.canvasHeight) (H.rnd (H.PI * 2)) "#16213e") ∧
      (∀ i, i < s.settings.barCount.toNat →
        (specSequence H s.settings d s.canvasWidth s.canvasHeight)[i + 1]?
            = some (drawBar H s.settings d s.canvasWidth s.canvasHeight i) ∧
          ∃ x1 y1 x2 y2 hue,
            drawBar H s.settings d s.canvasWidth s.canvasHeight i
              = .strokeLine x1 y1 x2 y2 hue 4 "round") ∧
      (specSequence H s.settings d s.canvasWidth s.canvasHeight)[s.settings.barCount.toNat + 1]?
        = some (.fillDisk (center H s.canvasWidth) (center H s.canvasHeight) 20
            (H.rnd (H.PI * 2)) "#4361ee") ∧
      ∀ t : State, t.dataArray = some d → t.settings = s.settings →
        t.canvasWidth = s.canvasWidth → t.canvasHeight = s.canvasHeight →
        issued t (drawVisualizer H t).1 = issued s (drawVisualizer H s).1 := by
  have hs := drawVisualizer_eq H s d hd
  refine ⟨by rw [hs], issued_drawVisualizer H s d hd,
    by rw [specSequence_length]; push_cast; omega,
    by simp [specSequence], fun i hi => ⟨specSequence_bar _ _ _ _ _ i hi, ?_⟩, ?_,
    fun t htd hts htw hth => ?_⟩
  · exact ⟨_, _, _, _, _, rfl⟩
  · simp only [specSequence]
    rw [List.getElem?_append_right (by simp)]
    simp
  · rw [issued_drawVisualizer H s d hd, issued_drawVisualizer H t d htd, hts, htw, hth]

theorem drawVisualizer_sequence_witness :
    referenceState.dataArray = some (List.replicate 1024 0) ∧
      1 ≤ referenceState.settings.barCount ∧
      (drawVisualizer exactHost referenceState).2 = none ∧
      issued referenceState (drawVisualizer exactHost referenceState).1
        = specSequence exactHost referenceState.settings (List.replicate 1024 0)
            referenceState.canvasWidth referenceState.canvasHeight :=
  have h := drawVisualizer_sequence exactHost referenceState (List.replicate 1024 0) rfl
    (by decide)
  ⟨rfl, by decide, h.1, h.2.1⟩

/-! ## The render loop when capture is off -/

/-- C5. When `isActive` is false, `animate` returns at once: the state it leaves
is the state it found, so the sample array is neither refreshed nor read, the
canvas is neither cleared nor painted, no frame callback is requested and no
variable changes; nothing is thrown. -/
theorem animate_inactive (H : Host) (fresh : List (Fin 256)) (s : State)
    (h : s.isActive = false) :
    animate H fresh s = (s, none) ∧
      (animate H fresh s).1.dataArray = s.dataArray ∧
      (animate H fresh s).1.sampleReads = s.sampleReads ∧
      (animate H fresh s).1.surface = s.surface ∧
      (animate H fresh s).1.pendingFrames = s.pendingFrames ∧
      (animate H fresh s).1.nextFrameId = s.nextFrameId ∧
      (animate H fresh s).1.animationId = s.animationId ∧
      (animate H fresh s).1.isActive = s.isActive ∧
      (animate H fresh s).1.settings = s.settings := by
  have e : animate H fresh s = (s, none) := by simp [animate, h]
  simp [e]

theorem animate_inactive_witness :
    (initialState referencePage).isActive = false ∧
      animate exactHost [] (initialState referencePage) = (initialState referencePage, none) :=
  ⟨rfl, (animate_inactive exactHost [] (initialState referencePage) rfl).1⟩

/-! ## The demo frame -/

theorem demoData_length (H : Host) : (demoData H).length = 1024 := by
  simp [demoData]

theorem drawStaticVisualizer_eq (H : Host) (s : State) :
    drawStaticVisualizer H s =
      ({ s with
          surface := s.surface ++ specSequence H s.settings (demoData H) s.canvasWidth
            s.canvasHeight
          sampleReads := s.sampleReads + s.settings.barCount.toNat }, none) := by
  simp only [drawStaticVisualizer,
    drawVisualizer_eq H { s with dataArray := some (demoData H) } (demoData H) rfl]

/-- C9. When `isActive` is false and `barCount ≥ 1`, `drawStaticVisualizer` throws
nothing and paints a non-empty sequence: exactly the sequence `drawVisualizer`
paints when `dataArray` is the synthetic array of 1024 entries, that is the
background disk, `barCount` segments from the same bar mapping and the centre
disk (`barCount + 2` primitives).  The result does not depend on `isActive`;
afterwards `isActive` and `dataArray` are what they were.  The `load` handler
paints the same sequence. -/
theorem drawStaticVisualizer_sequence (H : Host) (s : State) (ha : s.isActive = false)
    (hb : 1 ≤ s.settings.barCount) :
    (drawStaticVisualizer H s).2 = none ∧
      issued s (drawStaticVisualizer H s).1 ≠ [] ∧
      (demoData H).length = 1024 ∧
      issued s (drawStaticVisualizer H s).1
        = issued { s with dataArray := some (demoData H) }
            (drawVisualizer H { s with dataArray := some (demoData H) }).1 ∧
      issued s (drawStaticVisualizer H s).1
        = specSequence H s.settings (demoData H) s.canvasWidth s.canvasHeight ∧
      ((issued s (drawStaticVisualizer H s).1).length : ℤ) = s.settings.barCount + 2 ∧
      (drawStaticVisualizer H s).1.isActive = false ∧
      (drawStaticVisualizer H s).1.dataArray = s.dataArray ∧
      (∀ a : Bool, drawStaticVisualizer H { s with isActive := a }
        = ({ (drawStaticVisualizer H s).1 with isActive := a }, none)) ∧
      issued s (loadHandler H s)
        = specSequence H s.settings (demoData H) s.canvasWidth s.canvasHeight := by
  have e := drawStaticVisualizer_eq H s
  have hi : issued s (drawStaticVisualizer H s).1
      = specSequence H s.settings (demoData H) s.canvasWidth s.canvasHeight :=
    issued_append _ _ _ (by rw [e])
  have hl := specSequence_length H s.settings (demoData H) s.canvasWidth s.canvasHeight
  refine ⟨by rw [e], ?_, demoData_length H, ?_, hi, ?_, by rw [e]; exact ha, by rw [e], ?_, ?_⟩
  · intro hnil
    rw [hi] at hnil
    rw [hnil] at hl
    simp at hl
  · rw [hi, issued_drawVisualizer H _ (demoData H) rfl]
  · rw [hi, hl]; push_cast; omega
  · intro a
    rw [drawStaticVisualizer_eq, e]
  · apply issued_append
    simp only [loadHandler, e]

theorem drawStaticVisualizer_sequence_witness :
    (initialState referencePage).isActive = false ∧
      1 ≤ (initialState referencePage).settings.barCount ∧
      issued (initialState referencePage)
        (drawStaticVisualizer exactHost (initialState referencePage)).1 ≠ [] :=
  ⟨rfl, by decide,
    (drawStaticVisualizer_sequence exactHost (initialState referencePage) rfl (by decide)).2.1⟩

/-! ## Start and stop -/

theorem animate_active (H : Host) (fresh : List (Fin 256)) (s : State) (a : Analyser)
    (d : List (Fin 256)) (hact : s.isActive = true) (ha : s.analyser = some a)
    (hd : s.dataArray = some d) :
    animate H fresh s =
      ({ s with
          dataArray := some (refresh d fresh)
          surface := specSequence H s.settings (refresh d fresh) s.canvasWidth s.canvasHeight
          sampleReads := s.sampleReads + s.settings.barCount.toNat
          animationId := some s.nextFrameId
          pendingFrames := s.pendingFrames ++ [s.nextFrameId]
          nextFrameId := s.nextFrameId + 1 }, none) := by
  have h1 := drawVisualizer_eq H
    { { s with dataArray := some (refresh d fresh) } with surface := [] } (refresh d fresh) rfl
  simp only [animate, hact, ha, hd, Bool.true_eq_false, if_false, List.nil_append] at h1 ⊢
  rw [h1]

theorem startResume_granted (H : Host) (tracks : ℕ) (fresh : List (Fin 256)) (s : State) :
    startResume H (.granted tracks none fresh) s =
      { s with
        streams := s.streams ++ [List.replicate tracks 0]
        contexts := s.contexts ++ [0]
        audioContext := some s.contexts.length
        analyser := some { context := s.contexts.length, fftSize := 2048 }
        microphone := some { mediaStream := s.streams.length, context := s.contexts.length }
        dataArray := some (refresh (newUint8Array (2048 / 2)) fresh)
        isActive := true
        startDisabled := true
        stopDisabled := false
        statusText := "🟢 Microphone: On - Speak or play music!"
        statusColor := "#4cc9f0"
        surface := specSequence H s.settings (refresh (newUint8Array (2048 / 2)) fresh)
          s.canvasWidth s.canvasHeight
        sampleReads := s.sampleReads + s.settings.barCount.toNat
        animationId := some s.nextFrameId
        pendingFrames := s.pendingFrames ++ [s.nextFrameId]
        nextFrameId := s.nextFrameId + 1 } := by
  have h1 := animate_active H fresh
    { s with
      streams := s.streams ++ [List.replicate tracks 0]
      contexts := s.contexts ++ [0]
      audioContext := some s.contexts.length
      analyser := some { context := s.contexts.length, fftSize := 2048 }
      microphone := some { mediaStream := s.streams.length, context := s.contexts.length }
      dataArray := some (newUint8Array (2048 / 2))
      isActive := true
      startDisabled := true
      stopDisabled := false
      statusText := "🟢 Microphone: On - Speak or play music!"
      statusColor := "#4cc9f0" }
    { context := s.contexts.length, fftSize := 2048 } (newUint8Array (2048 / 2)) rfl rfl rfl
  simp only [startResume, reduceCtorEq, if_false] at h1 ⊢
  rw [h1]

theorem startResume_failsEarly (H : Host) (o : MicOutcome) (s : State)
    (ho : o.failsEarly = true) :
    (startResume H o s).isActive = s.isActive ∧
      (startResume H o s).pendingFrames = s.pendingFrames ∧
      (startResume H o s).nextFrameId = s.nextFrameId ∧
      (startResume H o s).animationId = s.animationId ∧
      (startResume H o s).surface = s.surface ∧
      (startResume H o s).sampleReads = s.sampleReads ∧
      (startResume H o s).uncaught = s.uncaught ∧
      (startResume H o s).pendingMic = s.pendingMic ∧
      (startResume H o s).statusText = "❌ Error accessing microphone" ∧
      (startResume H o s).statusColor = "#f72585" := by
  cases o with
  | denied => simp [startResume, startCatch]
  | granted tracks failAt fresh =>
    cases failAt with
    | none => simp [MicOutcome.failsEarly] at ho
    | some st => cases st <;> simp [startResume, startCatch]

theorem startHandler_eq (H : Host) (o : MicOutcome) (s : State) :
    startHandler H o s = startResume H o s := by
  simp [startHandler, startRequest]

theorem startHandler_activeSession (H : Host) (tracks : ℕ) (fresh : List (Fin 256))
    (s : State) (h : s.pendingFrames = []) :
    ActiveSession (startHandler H (.granted tracks none fresh) s)
      { mediaStream := s.streams.length, context := s.contexts.length } s.contexts.length
      s.nextFrameId tracks := by
  rw [startHandler_eq, startResume_granted]
  simp [ActiveSession, h]

theorem ActiveSession.frame (H : Host) (fresh : List (Fin 256)) {s : State} {m : MicSource}
    {c id tracks : ℕ} (h : ActiveSession s m c id tracks) (a : Analyser)
    (d : List (Fin 256)) (ha : s.analyser = some a) (hd : s.dataArray = some d) :
    ActiveSession (step H (.frame id fresh) s) m c s.nextFrameId tracks := by
  obtain ⟨h1, h2, h3, h4, h5, h6, h7⟩ := h
  have e := animate_active H fresh { s with pendingFrames := s.pendingFrames.erase id } a d
    h1 ha hd
  have hmem : id ∈ s.pendingFrames := by simp [h7]
  simp only [step]
  rw [if_pos hmem, e]
  simp [ActiveSession, h1, h2, h3, h4, h5, h7]

/-- C6. From a running session (activity flag set, microphone and audio context
acquired and not yet released, one frame callback pending) one run of the stop
handler leaves `isActive` false, the canvas cleared and no frame callback
pending, so that no frame event runs `animate` any more and `animate` itself
would return at once; every track of the microphone stream and the audio
context have then received exactly one release call, and no other stream or
context has received one. -/
theorem stop_active_session (H : Host) (s : State) (m : MicSource) (c id tracks : ℕ)
    (h : ActiveSession s m c id tracks) :
    (stopHandler s).isActive = false ∧
      (stopHandler s).surface = [] ∧
      (stopHandler s).pendingFrames = [] ∧
      (∀ fid fresh, step H (.frame fid fresh) (stopHandler s) = stopHandler s) ∧
      (∀ fresh, animate H fresh (stopHandler s) = (stopHandler s, none)) ∧
      (stopHandler s).streams[m.mediaStream]? = some (List.replicate tracks 1) ∧
      (stopHandler s).contexts[c]? = some 1 ∧
      (∀ j, j ≠ m.mediaStream → (stopHandler s).streams[j]? = s.streams[j]?) ∧
      (∀ j, j ≠ c → (stopHandler s).contexts[j]? = s.contexts[j]?) := by
  obtain ⟨h1, h2, h3, h4, h5, h6, h7⟩ := h
  have hact : (stopHandler s).isActive = false := by simp [stopHandler, h2, h3, h6]
  have hpend : (stopHandler s).pendingFrames = [] := by simp [stopHandler, h2, h3, h6, h7]
  refine ⟨hact, by simp [stopHandler, h2, h3, h6], hpend, fun fid fresh => ?_, fun fresh => ?_,
    ?_, ?_, fun j hj => ?_, fun j hj => ?_⟩
  · simp [step, hpend]
  · simp [animate, hact]
  · simp [stopHandler, h2, h3, h6, List.getElem?_modify, h4]
  · simp [stopHandler, h2, h3, h6, List.getElem?_modify, h5]
  · simp [stopHandler, h2, h3, h6, List.getElem?_modify, Ne.symm hj]
  · simp [stopHandler, h2, h3, h6, List.getElem?_modify, Ne.symm hj]

theorem startedState_activeSession :
    ActiveSession startedState { mediaStream := 0, context := 0 } 0 1 1 :=
  startHandler_activeSession exactHost 1 [] (initialState referencePage) rfl

theorem stop_active_session_witness :
    ActiveSession startedState { mediaStream := 0, context := 0 } 0 1 1 ∧
      (stopHandler startedState).isActive = false ∧
      (stopHandler startedState).pendingFrames = [] ∧
      (stopHandler startedState).streams[0]? = some [1] ∧
      (stopHandler startedState).contexts[0]? = some 1 :=
  have h := stop_active_session exactHost startedState { mediaStream := 0, context := 0 } 0 1 1
    startedState_activeSession
  ⟨startedState_activeSession, h.1, h.2.2.1, h.2.2.2.2.2.1, h.2.2.2.2.2.2.1⟩

/-! ## A failed start -/

theorem step_click_settle (H : Host) (o : MicOutcome) (s : State)
    (hd : s.startDisabled = false) :
    step H (.micSettled o) (step H .startClick s) = startHandler H o s := by
  have e : step H .startClick s = startRequest s := by
    show (if s.startDisabled then s else startRequest s) = _
    rw [hd]; rfl
  rw [e]
  simp [step, startRequest, startHandler]

/-- C8. If `isActive` is false when the start handler runs and its `try` block is
left before `isActive = true` (the microphone request is rejected, or a later
call throws), then afterwards `isActive` is still false, `animate` has not run
(canvas, sample reads and `animationId` are untouched), no frame callback has
been requested, no error has left the handler, and the status line shows the
failure message in the failure colour.  With the start button enabled, this is
what the click followed by the settling of the request does. -/
theorem start_failure (H : Host) (o : MicOutcome) (s : State) (ha : s.isActive = false)
    (ho : o.failsEarly = true) :
    (startHandler H o s).isActive = false ∧
      (startHandler H o s).pendingFrames = s.pendingFrames ∧
      (startHandler H o s).nextFrameId = s.nextFrameId ∧
      (startHandler H o s).animationId = s.animationId ∧
      (startHandler H o s).surface = s.surface ∧
      (startHandler H o s).sampleReads = s.sampleReads ∧
      (startHandler H o s).uncaught = s.uncaught ∧
      (startHandler H o s).statusText = "❌ Error accessing microphone" ∧
      (startHandler H o s).statusColor = "#f72585" ∧
      (s.startDisabled = false →
        step H (.micSettled o) (step H .startClick s) = startHandler H o s) := by
  have h := startResume_failsEarly H o s ho
  refine ⟨?_, ?_, ?_, ?_, ?_, ?_, ?_, ?_, ?_, step_click_settle H o s⟩ <;> rw [startHandler_eq]
  · rw [h.1, ha]
  · exact h.2.1
  · exact h.2.2.1
  · exact h.2.2.2.1
  · exact h.2.2.2.2.1
  · exact h.2.2.2.2.2.1
  · exact h.2.2.2.2.2.2.1
  · exact h.2.2.2.2.2.2.2.2.1
  · exact h.2.2.2.2.2.2.2.2.2

theorem start_failure_witness :
    (initialState referencePage).isActive = false ∧
      MicOutcome.denied.failsEarly = true ∧
      (startHandler exactHost .denied (initialState referencePage)).isActive = false ∧
      (startHandler exactHost .denied (initialState referencePage)).pendingFrames = [] :=
  have h := start_failure exactHost .denied (initialState referencePage) rfl rfl
  ⟨rfl, rfl, h.1, h.2.1⟩

/-! ## Stopping when nothing runs -/

theorem deniedState_eq : deniedState = startCatch (initialState referencePage) := by
  rw [deniedState, startHandler_eq]; rfl

theorem startedState_eq :
    startedState = startResume exactHost (.granted 1 none []) (initialState referencePage) := by
  rw [startedState, startHandler_eq]

theorem loadHandler_surface (H : Host) (s : State) :
    (loadHandler H s).surface
      = s.surface ++ specSequence H s.settings (demoData H) s.canvasWidth s.canvasHeight := by
  simp only [loadHandler, drawStaticVisualizer_eq]

/-- C7, as stated, fails.  After a denied start no device was ever acquired, yet
the stop handler replaces the status message; after `load` it wipes the demo
frame off the canvas; and on a session that is already stopped it calls
`stop()` on the track and `close()` on the context a second time. -/
theorem stop_changes_idle_page :
    (NoDevice deniedState ∧ deniedState.isActive = false ∧
        deniedState.statusText = "❌ Error accessing microphone" ∧
        (stopHandler deniedState).statusText = "🔴 Microphone: Off") ∧
      (NoDevice loadedState ∧ loadedState.surface.length = 62 ∧
        (stopHandler loadedState).surface = []) ∧
      (AlreadyStopped stoppedState ∧
        stoppedState.streams = [[1]] ∧ (stopHandler stoppedState).streams = [[2]] ∧
        stoppedState.contexts = [1] ∧ (stopHandler stoppedState).contexts = [2]) := by
  refine ⟨⟨?_, ?_, ?_, ?_⟩, ⟨?_, ?_, ?_⟩, ⟨⟨startedState, rfl⟩, ?_, ?_, ?_, ?_⟩⟩
  · rw [deniedState_eq]; exact ⟨rfl, rfl⟩
  · rw [deniedState_eq]; rfl
  · rw [deniedState_eq]; rfl
  · rw [deniedState_eq]; rfl
  · exact ⟨by simp [loadedState, loadHandler, drawStaticVisualizer_eq, initialState],
      by simp [loadedState, loadHandler, drawStaticVisualizer_eq, initialState]⟩
  · rw [loadedState, loadHandler_surface, List.length_append, specSequence_length]
    rfl
  · simp [stopHandler]
  · simp [stoppedState, startedState_eq, startResume_granted, stopHandler, initialState]
  · simp [stoppedState, startedState_eq, startResume_granted, stopHandler, initialState]
  · simp [stoppedState, startedState_eq, startResume_granted, stopHandler, initialState]
  · simp [stoppedState, startedState_eq, startResume_granted, stopHandler, initialState]

theorem filter_ne_idem (id : ℕ) (l : List ℕ) :
    (l.filter (· ≠ id)).filter (· ≠ id) = l.filter (· ≠ id) := by
  simp [List.filter_filter]

theorem stopHandler_pendingFrames (s : State) :
    (stopHandler s).pendingFrames =
      match s.animationId with
      | some id => s.pendingFrames.filter (· ≠ id)
      | none => s.pendingFrames := by
  cases h : s.animationId <;> cases hm : s.microphone <;> cases hc : s.audioContext <;>
    simp [stopHandler, h, hm, hc]

theorem stopHandler_fields (s : State) :
    (stopHandler s).isActive = false ∧ (stopHandler s).startDisabled = false ∧
      (stopHandler s).stopDisabled = true ∧
      (stopHandler s).statusText = "🔴 Microphone: Off" ∧
      (stopHandler s).statusColor = "white" ∧ (stopHandler s).surface = [] ∧
      (stopHandler s).microphone = s.microphone ∧
      (stopHandler s).audioContext = s.audioContext ∧
      (stopHandler s).analyser = s.analyser ∧ (stopHandler s).dataArray = s.dataArray ∧
      (stopHandler s).animationId = s.animationId ∧
      (stopHandler s).uncaught = s.uncaught := by
  cases h : s.animationId <;> cases hm : s.microphone <;> cases hc : s.audioContext <;>
    simp [stopHandler, h, hm, hc]

/-- C7, amended. On a state where no device was ever acquired, or which the stop
handler itself left, the stop handler throws nothing and ends with `isActive`
false, the start button enabled, the stop button disabled, the status line
set to the off message in white and the canvas cleared, the handles being
what they were.  Without a device it makes no release call.  On a state it
left itself it changes none of the activity flag, the handles, the status
message and colour, the buttons, the canvas and the pending frames; and since
it leaves the stop button disabled, a stop click then runs nothing. -/
theorem stop_idle (H : Host) (s : State) (h : NoDevice s ∨ AlreadyStopped s) :
    ((stopHandler s).isActive = false ∧ (stopHandler s).startDisabled = false ∧
        (stopHandler s).stopDisabled = true ∧
        (stopHandler s).statusText = "🔴 Microphone: Off" ∧
        (stopHandler s).statusColor = "white" ∧ (stopHandler s).surface = [] ∧
        (stopHandler s).microphone = s.microphone ∧
        (stopHandler s).audioContext = s.audioContext ∧
        (stopHandler s).uncaught = s.uncaught) ∧
      (NoDevice s →
        (stopHandler s).streams = s.streams ∧ (stopHandler s).contexts = s.contexts) ∧
      (AlreadyStopped s →
        (stopHandler s).isActive = s.isActive ∧
          (stopHandler s).microphone = s.microphone ∧
          (stopHandler s).audioContext = s.audioContext ∧
          (stopHandler s).statusText = s.statusText ∧
          (stopHandler s).statusColor = s.statusColor ∧
          (stopHandler s).startDisabled = s.startDisabled ∧
          (stopHandler s).stopDisabled = s.stopDisabled ∧
          (stopHandler s).surface = s.surface ∧
          (stopHandler s).pendingFrames = s.pendingFrames ∧
          step H .stopClick s = s) := by
  have hf := stopHandler_fields s
  refine ⟨⟨hf.1, hf.2.1, hf.2.2.1, hf.2.2.2.1, hf.2.2.2.2.1, hf.2.2.2.2.2.1, hf.2.2.2.2.2.2.1,
    hf.2.2.2.2.2.2.2.1, hf.2.2.2.2.2.2.2.2.2.2.2⟩, ?_, ?_⟩
  · rintro ⟨hm, hc⟩
    cases ha : s.animationId <;> simp [stopHandler, hm, hc, ha]
  · rintro ⟨s0, rfl⟩
    have h0 := stopHandler_fields s0
    have h1 := stopHandler_fields (stopHandler s0)
    refine ⟨by rw [h1.1, h0.1], h1.2.2.2.2.2.2.1, h1.2.2.2.2.2.2.2.1,
      by rw [h1.2.2.2.1, h0.2.2.2.1], by rw [h1.2.2.2.2.1, h0.2.2.2.2.1],
      by rw [h1.2.1, h0.2.1], by rw [h1.2.2.1, h0.2.2.1],
      by rw [h1.2.2.2.2.2.1, h0.2.2.2.2.2.1], ?_, ?_⟩
    · rw [stopHandler_pendingFrames (stopHandler s0), h0.2.2.2.2.2.2.2.2.2.2.1,
        stopHandler_pendingFrames s0]
      cases s0.animationId with
      | none => rfl
      | some id => exact filter_ne_idem id _
    · show (if (stopHandler s0).stopDisabled then stopHandler s0
        else stopHandler (stopHandler s0)) = _
      rw [h0.2.2.1]; rfl

theorem stop_idle_witness :
    (NoDevice deniedState ∨ AlreadyStopped deniedState) ∧
      (stopHandler deniedState).isActive = false ∧
      (stopHandler deniedState).streams = deniedState.streams :=
  have hn : NoDevice deniedState := by rw [deniedState_eq]; exact ⟨rfl, rfl⟩
  have h := stop_idle exactHost deniedState (Or.inl hn)
  ⟨Or.inl hn, h.1.1, (h.2.1 hn).1⟩

/-! ## Overlapping render loops -/

/-- C10 fails on the code. Two start clicks while the first microphone request is
pending, both then granted, leave two frame callbacks pending while capture is
active; the stop handler cancels only the later one. -/
theorem double_start_two_pending :
    (run exactHost doubleStart (initialState referencePage)).isActive = true ∧
      (run exactHost doubleStart (initialState referencePage)).pendingFrames = [1, 2] ∧
      (run exactHost doubleStart (initialState referencePage)).animationId = some 2 ∧
      (run exactHost (doubleStart ++ [.stopClick]) (initialState referencePage)).pendingFrames
        = [1] := by
  simp [run, doubleStart, step, startRequest, startResume_granted, stopHandler, initialState,
    referencePage]

/-! ## The render loop without overlapping requests -/

theorem LoopInvariant.load (H : Host) {s : State} (h : LoopInvariant s) :
    LoopInvariant (loadHandler H s) := by
  simp only [loadHandler, drawStaticVisualizer_eq]
  exact h

theorem LoopInvariant.settle (H : Host) (o : MicOutcome) {s : State} (h : LoopInvariant s) :
    LoopInvariant (step H (.micSettled o) s) := by
  obtain ⟨h1, h2, h3⟩ := h
  simp only [step]
  split_ifs with h0
  · exact ⟨h1, h2, h3⟩
  · have hp : s.pendingMic = 1 := by omega
    have hact : s.isActive = false := by
      cases ha : s.isActive
      · rfl
      · have := (h2 ha).1; omega
    have hfr := h3 hact
    by_cases ho : o.failsEarly = true
    · have hf := startResume_failsEarly H o { s with pendingMic := s.pendingMic - 1 } ho
      refine ⟨?_, fun ha => ?_, fun _ => ?_⟩
      · rw [hf.2.2.2.2.2.2.2.1]; simp only []; omega
      · rw [hf.1] at ha; simp only [] at ha; rw [hact] at ha; cases ha
      · rw [hf.2.1]; exact hfr
    · cases o with
      | denied => exact absurd rfl ho
      | granted tracks failAt fresh =>
        cases failAt with
        | some st => exact absurd rfl ho
        | none =>
          rw [startResume_granted]
          refine ⟨by simp only []; omega, fun _ => ⟨by simp only []; omega, rfl, by simp, by simp,
            ⟨s.nextFrameId, rfl, by simp [hfr]⟩⟩, fun ha => by simp at ha⟩

theorem LoopInvariant.deliver (H : Host) (id : ℕ) (fresh : List (Fin 256)) {s : State}
    (h : LoopInvariant s) : LoopInvariant (step H (.frame id fresh) s) := by
  obtain ⟨h1, h2, h3⟩ := h
  simp only [step]
  split_ifs with hmem
  · by_cases ha : s.isActive = true
    swap
    · rw [h3 (by simpa using ha)] at hmem; simp at hmem
    · obtain ⟨g1, g2, g3, g4, id0, g5, g6⟩ := h2 ha
      obtain ⟨a, hA⟩ := Option.ne_none_iff_exists'.mp g3
      obtain ⟨d, hD⟩ := Option.ne_none_iff_exists'.mp g4
      rw [g6, List.mem_singleton] at hmem
      subst hmem
      rw [animate_active H fresh { s with pendingFrames := s.pendingFrames.erase id } a d ha hA hD]
      refine ⟨h1, fun _ => ⟨g1, g2, by simp [hA], by simp, ⟨s.nextFrameId, rfl, by simp [g6]⟩⟩,
        fun hf => ?_⟩
      simp only [] at hf
      rw [ha] at hf; cases hf
  · exact ⟨h1, h2, h3⟩

theorem stopHandler_pendingMic (s : State) : (stopHandler s).pendingMic = s.pendingMic := by
  cases h : s.animationId <;> cases hm : s.microphone <;> cases hc : s.audioContext <;>
    simp [stopHandler, h, hm, hc]

theorem LoopInvariant.stop {s : State} (h : LoopInvariant s) :
    LoopInvariant (stopHandler s) := by
  obtain ⟨h1, h2, h3⟩ := h
  have hf := stopHandler_fields s
  refine ⟨by rw [stopHandler_pendingMic]; exact h1, fun ha => ?_, fun _ => ?_⟩
  · rw [hf.1] at ha; cases ha
  · rw [stopHandler_pendingFrames]
    cases ha : s.isActive
    · rw [h3 ha]; cases s.animationId <;> rfl
    · obtain ⟨_, _, _, _, id0, g5, g6⟩ := h2 ha
      rw [g5, g6]; simp

theorem LoopInvariant.step (H : Host) (e : Event) {s : State} (h : LoopInvariant s) :
    LoopInvariant (stepSingleRequest H e s) := by
  cases e with
  | load => exact h.load H
  | sensitivityInput v => exact h
  | barsInput v => exact h
  | startClick =>
    obtain ⟨h1, h2, h3⟩ := h
    simp only [stepSingleRequest, AudioEqualizer.step]
    split_ifs with h0 hd
    · exact ⟨h1, h2, h3⟩
    · refine ⟨by simp only [startRequest]; omega, fun ha => ?_, h3⟩
      have := (h2 ha).2.1
      rw [this] at hd; exact absurd rfl hd
    · exact ⟨h1, h2, h3⟩
  | micSettled o => exact h.settle H o
  | frame id fresh => exact h.deliver H id fresh
  | stopClick =>
    simp only [stepSingleRequest, AudioEqualizer.step]
    split_ifs
    · exact h
    · exact h.stop

theorem initialState_loopInvariant (page : Page) : LoopInvariant (initialState page) :=
  ⟨Nat.zero_le _, fun ha => absurd ha (by simp [initialState]), fun _ => rfl⟩

/-- When no start click is accepted while a microphone request is awaited, every
reachable state has exactly one frame callback pending while capture is
active and none otherwise. -/
theorem single_request_one_frame (H : Host) (page : Page) (events : List Event) :
    ((runSingleRequest H events (initialState page)).isActive = true →
        (runSingleRequest H events (initialState page)).pendingFrames.length = 1) ∧
      (runSingleRequest H events (initialState page)).pendingFrames.length ≤ 1 := by
  have hinv : ∀ (es : List Event) (s : State), LoopInvariant s →
      LoopInvariant (runSingleRequest H es s) := by
    intro es
    induction es with
    | nil => intro s hs; exact hs
    | cons e es ih => intro s hs; exact ih _ (hs.step H e)
  obtain ⟨_, h2, h3⟩ := hinv events _ (initialState_loopInvariant page)
  constructor
  · intro ha
    obtain ⟨_, _, _, _, id, _, hp⟩ := h2 ha
    rw [hp]; rfl
  · cases ha : (runSingleRequest H events (initialState page)).isActive
    · rw [h3 ha]; exact Nat.zero_le _
    · obtain ⟨_, _, _, _, id, _, hp⟩ := h2 ha
      rw [hp]; exact le_rfl

end AudioEqualizer
